import Mathlib

/-!
A shallow embedding of `main.go` of oci-vnic-profile-initializer.

Go strings are modelled as lists of Unicode code points (`Str`).  The three
string functions of the Go standard library that the program calls
(`strings.TrimSpace`, `strings.Split`, `strings.ToLower`) are modelled after
their documented behaviour; `strings.Split` is modelled for one-character
separators, the only ones the program uses (`"\n"`, `" "`, `"/"`), and the
case tables of `unicode.ToLower` beyond ASCII are a parameter.

The retry loop and the exponential policy of `github.com/cenkalti/backoff/v4`
(the releases that have `RetryWithData`) are modelled after the library:
`NextBackOff` stops when the elapsed time plus the delay drawn is over
`MaxElapsedTime`.  Time is a simulated clock in nanoseconds, a natural number;
it advances by the duration of each request and by each wait.
-/

namespace OciVnic

/-- A Go string, as its sequence of code points. -/
abbrev Str := List Char

/-! ## Standard-library string functions -/

/-- Go `unicode.IsSpace`: the Latin-1 spaces `\t \n \v \f \r`, space, U+0085,
U+00A0, and the code points of the `White_Space` property beyond Latin-1. -/
def isSpace (c : Char) : Bool :=
  let n := c.toNat
  n == 0x09 || n == 0x0A || n == 0x0B || n == 0x0C || n == 0x0D || n == 0x20 ||
  n == 0x85 || n == 0xA0 || n == 0x1680 || (0x2000 ≤ n && n ≤ 0x200A) ||
  n == 0x2028 || n == 0x2029 || n == 0x202F || n == 0x205F || n == 0x3000

/-- Go `strings.TrimLeftFunc(s, unicode.IsSpace)`. -/
def trimLeft (s : Str) : Str := s.dropWhile isSpace

/-- Go `strings.TrimRightFunc(s, unicode.IsSpace)`. -/
def trimRight (s : Str) : Str := (s.reverse.dropWhile isSpace).reverse

/-- Go `strings.TrimSpace`: all leading and trailing white space removed. -/
def TrimSpace (s : Str) : Str := trimRight (trimLeft s)

/-- Go `strings.Split(s, sep)` for a one-character separator: the pieces of `s`
between consecutive occurrences of `sep`; a string without `sep` (the empty
string included) gives the one-element slice holding the string itself. -/
def Split : Str → Char → List Str
  | [], _ => [[]]
  | c :: cs, sep =>
    if c = sep then [] :: Split cs sep
    else
      match Split cs sep with
      | [] => [[c]]
      | p :: ps => (c :: p) :: ps

/-- Go `unicode.ToLower`: ASCII is handled inline (`'A'..'Z'` shifted by
`'a' - 'A'`), every other code point goes through the case tables of the
standard library, here the parameter `tbl`. -/
def unicodeToLower (tbl : Char → Char) (r : Char) : Char :=
  if r.toNat ≤ 0x7F then
    if 'A'.toNat ≤ r.toNat ∧ r.toNat ≤ 'Z'.toNat then Char.ofNat (r.toNat + 32) else r
  else tbl r

/-- Go `strings.ToLower`: every code point mapped by `unicode.ToLower`. -/
def ToLower (tbl : Char → Char) (s : Str) : Str := s.map (unicodeToLower tbl)

/-- A Go index expression `xs[i]`: `none` stands for the run-time panic
`index out of range`. -/
def indexAt {α : Type} (xs : List α) (i : Int) : Option α :=
  if 0 ≤ i then xs.get? i.toNat else none

/-! ## Errors and records -/

deriving instance DecidableEq for Except

/-- The error values the program handles.  `external` are errors produced by
the collaborators (command execution, HTTP transport, JSON decoding, template
engine, file system); the next three are the `errors.New` values of `main.go`;
`indexOutOfRange` is the run-time panic of an index expression. -/
inductive GoError where
  | external (tag : Nat)
  | emptyResult
  | parseMacAddress
  | notMatched
  | indexOutOfRange
deriving DecidableEq, Repr

/-- One entry of the metadata response (`VnicMetadataResponse`); an absent
`ipv6Addresses` decodes to the empty list. -/
structure VnicMetadataResponse where
  MacAddr : Str
  PrivateIp : Str
  SubnetCidrBlock : Str
  VirtualRouterIp : Str
  IPv6Addresses : List Str
  IPv6SubnetCidrBlock : Str
  IPv6VirtualRouterIp : Str
deriving DecidableEq, Repr

/-- The converted record (`VnicMetadata`). -/
structure VnicMetadata where
  VnicIndex : Nat
  Name : Str
  MacAddr : Str
  PrivateIp : Str
  SubnetMaskLength : Str
  VirtualRouterIp : Str
  IPv6Addresses : List Str
  IPv6SubnetMaskLength : Str
  IPv6VirtualRouterIp : Str
deriving DecidableEq, Repr

/-! ## The pure parts of `queryVnicMacAddress` and `doRequestVnicsMetadata` -/

/-- Lines 74-80 of `queryVnicMacAddress`: the parse of the command output,
which is not empty there. -/
def parseIpOutput (tbl : Char → Char) (result : Str) : Except GoError Str :=
  let lines := Split (TrimSpace result) '\n'
  match indexAt lines ((lines.length : Int) - 1) with
  | none => .error .indexOutOfRange
  | some last =>
    let parts := Split (TrimSpace last) ' '
    if parts.length ≠ 4 then .error .parseMacAddress
    else
      match indexAt parts 0 with
      | none => .error .indexOutOfRange
      | some p0 =>
        if p0 ≠ "link/ether".toList then .error .parseMacAddress
        else
          match indexAt parts 1 with
          | none => .error .indexOutOfRange
          | some p1 => .ok (ToLower tbl p1)

/-- Lines 106-121 of `doRequestVnicsMetadata`: the body of the loop, for the
entry `response` at position `idx`. -/
def convertEntry (tbl : Char → Char) (idx : Nat) (response : VnicMetadataResponse) :
    Except GoError VnicMetadata :=
  let metadata : VnicMetadata :=
    { VnicIndex := idx
      Name := []
      MacAddr := ToLower tbl response.MacAddr
      PrivateIp := response.PrivateIp
      SubnetMaskLength := []
      VirtualRouterIp := response.VirtualRouterIp
      IPv6Addresses := []
      IPv6SubnetMaskLength := []
      IPv6VirtualRouterIp := [] }
  let parts := Split response.SubnetCidrBlock '/'
  match indexAt parts ((parts.length : Int) - 1) with
  | none => .error .indexOutOfRange
  | some maskLength =>
    let metadata := { metadata with SubnetMaskLength := maskLength }
    if response.IPv6Addresses.length > 0 then
      let metadata := { metadata with IPv6Addresses := response.IPv6Addresses }
      let ipv6Parts := Split response.IPv6SubnetCidrBlock '/'
      match indexAt ipv6Parts ((ipv6Parts.length : Int) - 1) with
      | none => .error .indexOutOfRange
      | some maskLength6 =>
        .ok { metadata with
                IPv6SubnetMaskLength := maskLength6
                IPv6VirtualRouterIp := response.IPv6VirtualRouterIp }
    else .ok metadata

/-- Lines 104-125 of `doRequestVnicsMetadata`: the loop over the decoded
entries, `idx` the position of the next entry and `vnicsMetadata` the slice
appended to so far. -/
def convertLoop (tbl : Char → Char) :
    Nat → List VnicMetadata → List VnicMetadataResponse → Except GoError (List VnicMetadata)
  | _, vnicsMetadata, [] => .ok vnicsMetadata
  | idx, vnicsMetadata, response :: rest =>
    match convertEntry tbl idx response with
    | .error e => .error e
    | .ok metadata => convertLoop tbl (idx + 1) (vnicsMetadata ++ [metadata]) rest

/-- The conversion of a decoded response: the loop started at index 0 with the
nil slice. -/
def convertResponses (tbl : Char → Char) (rs : List VnicMetadataResponse) :
    Except GoError (List VnicMetadata) :=
  convertLoop tbl 0 [] rs

/-- Lines 149-155 of `doMatchVnicMetadata`: the scan of the fetched records. -/
def scanVnicsMetadata (name mac : Str) : List VnicMetadata → Except GoError VnicMetadata
  | [] => .error .notMatched
  | meta :: rest =>
    if meta.MacAddr = mac then .ok { meta with Name := name }
    else scanVnicsMetadata name mac rest

/-! ## Environment and state

The collaborators of the program (the `ip` command, the metadata endpoint, the
random source of the backoff library, the template engine, the file system's
refusals) are the fields of `Env`; what a run changes is the `World`: the
simulated clock (nanoseconds), how many requests and random draws were made,
the files, and the chronological record of log lines and external effects. -/

/-- What a run does, in order: the log lines of `main.go` and its calls to
the outside. -/
inductive Event where
  | logIpLinkShow (interfaceName : Str)
  | execIpLinkShow (interfaceName : Str)
  | logIpResult (result : Str)
  | logRequesting
  | httpGet (k : Nat)
  | logVnicsMetadata (responses : List VnicMetadataResponse)
  | logMatching (mac : Str)
  | sleep (d : Nat)
  | backoffStop (elapsed next : Nat)
  | stat (path : Str)
  | logAlreadyExists (path : Str)
  | logGenerating (path : Str)
  | parseFiles (path : Str)
  | openFile (path : Str)
  | execute (metadata : VnicMetadata)
  | logMatched (metadata : VnicMetadata)
  | fatalUsage
  | fatal (err : GoError)
  | crash
deriving DecidableEq, Repr

/-- The collaborators. `ipOutput n` is the result of
`exec.Command("/sbin/ip", "link", "show", "dev", n).Output()`; `httpResult k` is
the result of the `k`-th request to the endpoint followed by the JSON decoding
(an error of either, or the decoded entries) and `httpCost k` the time it
takes; `random k` is the `k`-th draw of `rand.Float64()`, as its numerator over
`2^53`; `parseFiles` is the result of `template.ParseFiles`; `openError p` the
error of `os.OpenFile` on `p`, if it refuses; `execute m` what `t.Execute`
writes for `m` and the error it ends with, if any.  An error of a
collaborator is given by its tag `t` and reaches the program as
`GoError.external t`. -/
structure Env where
  unicodeLower : Char → Char
  ipOutput : Str → Except Nat Str
  httpResult : Nat → Except Nat (List VnicMetadataResponse)
  httpCost : Nat → Nat
  random : Nat → Nat
  parseFiles : Option Nat
  openError : Str → Option Nat
  execute : VnicMetadata → Str × Option Nat

/-- The state of a run. `files` maps a path to the content of the file there
(the first pair with the path counts). -/
structure World where
  now : Nat
  requests : Nat
  draws : Nat
  files : List (Str × Str)
  log : List Event
deriving DecidableEq, Repr

/-- Appends one event to the record. -/
def emit (e : Event) (w : World) : World := { w with log := w.log ++ [e] }

/-- The content of the file at `path`, if there is one. -/
def World.file (w : World) (path : Str) : Option Str :=
  (w.files.find? (fun p => p.1 == path)).map (fun p => p.2)

/-! ## The backoff library (`github.com/cenkalti/backoff/v4`)

Durations are natural numbers of nanoseconds.  The float64 constants of a
policy are kept as exact fractions and the float64 arithmetic of the library
is carried out exactly, rounded down where the library converts to
`time.Duration`. -/

/-- A nonnegative constant `num / den`. -/
structure Frac where
  num : Nat
  den : Nat
deriving DecidableEq, Repr

/-- Go `time.Second`. -/
def timeSecond : Nat := 1000000000

/-- The policy `backoff.ExponentialBackOff`, with its two private fields. -/
structure ExponentialBackOff where
  InitialInterval : Nat
  RandomizationFactor : Frac
  Multiplier : Frac
  MaxInterval : Nat
  MaxElapsedTime : Nat
  currentInterval : Nat
  startTime : Nat
deriving DecidableEq, Repr

/-- The method `Reset`: the interval back to the initial one, the start time
set to the clock. -/
def ExponentialBackOff.Reset (b : ExponentialBackOff) (now : Nat) : ExponentialBackOff :=
  { b with currentInterval := b.InitialInterval, startTime := now }

/-- The constructor `backoff.NewExponentialBackOff()`: the defaults of the
library (500 ms, 0.5, 1.5, 60 s, 15 min), then `Reset`. -/
def NewExponentialBackOff (now : Nat) : ExponentialBackOff :=
  ExponentialBackOff.Reset
    { InitialInterval := 500000000
      RandomizationFactor := ⟨5, 10⟩
      Multiplier := ⟨15, 10⟩
      MaxInterval := 60 * timeSecond
      MaxElapsedTime := 15 * 60 * timeSecond
      currentInterval := 0
      startTime := 0 } now

/-- The library's `getRandomValueFromInterval(randomizationFactor, random,
currentInterval)`, `random` being `r / 2^53`: with `delta = factor * current`,
the value `(current - delta) + random * (2 * delta + 1)`, rounded down. -/
def getRandomValueFromInterval (randomizationFactor : Frac) (r : Nat) (currentInterval : Nat) :
    Nat :=
  if randomizationFactor.num = 0 then currentInterval
  else
    (currentInterval * (randomizationFactor.den - randomizationFactor.num) * 2 ^ 53
        + (r % 2 ^ 53) * (2 * currentInterval * randomizationFactor.num + randomizationFactor.den))
      / (randomizationFactor.den * 2 ^ 53)

/-- The method `incrementCurrentInterval`: the interval times the multiplier,
or the maximal interval once `current >= MaxInterval / Multiplier`. -/
def ExponentialBackOff.incrementCurrentInterval (b : ExponentialBackOff) : ExponentialBackOff :=
  if b.currentInterval * b.Multiplier.num ≥ b.MaxInterval * b.Multiplier.den then
    { b with currentInterval := b.MaxInterval }
  else
    { b with currentInterval := b.currentInterval * b.Multiplier.num / b.Multiplier.den }

/-- The method `NextBackOff`: the elapsed time is read, the next delay is
drawn around the current interval, the interval is incremented, and the
result is `Stop` (here `none`) when `MaxElapsedTime != 0` and
`elapsed + next > MaxElapsedTime`, else the delay. -/
def NextBackOff (env : Env) (b : ExponentialBackOff) (w : World) :
    Option Nat × ExponentialBackOff × World :=
  let elapsed := w.now - b.startTime
  let next := getRandomValueFromInterval b.RandomizationFactor (env.random w.draws) b.currentInterval
  let w := { w with draws := w.draws + 1 }
  let b := b.incrementCurrentInterval
  if b.MaxElapsedTime ≠ 0 ∧ elapsed + next > b.MaxElapsedTime then
    (none, b, emit (.backoffStop elapsed next) w)
  else (some next, b, w)

/-- The timer of the retry loop: the run waits `next`. -/
def sleep (next : Nat) (w : World) : World :=
  { emit (.sleep next) w with now := w.now + next }

/-- The loop of `backoff.RetryWithData` after `b.Reset()`, for at most `fuel`
attempts (`none` when they are used up).  The operation is attempted; a
success is returned at once; after a failure the policy is asked for the next
delay and the failure is returned when the policy says `Stop`, else the loop
waits and goes round.  No error of this program is a `PermanentError` and the
policy carries no context, so those two exits of the library loop are never
taken; a run-time panic of the operation leaves the loop at once. -/
def retryLoop {α : Type} (env : Env) (operation : World → Option (Except GoError α × World)) :
    Nat → ExponentialBackOff → World → Option (Except GoError α × World)
  | 0, _, _ => none
  | fuel + 1, b, w =>
    match operation w with
    | none => none
    | some (.ok res, w) => some (.ok res, w)
    | some (.error err, w) =>
      if err = .indexOutOfRange then some (.error err, w)
      else
        match NextBackOff env b w with
        | (none, _, w) => some (.error err, w)
        | (some next, b, w) => retryLoop env operation fuel b (sleep next w)

/-- The library's `backoff.RetryWithData(operation, b)`: `Reset`, then the loop. -/
def RetryWithData {α : Type} (env : Env) (fuel : Nat)
    (operation : World → Option (Except GoError α × World)) (b : ExponentialBackOff)
    (w : World) : Option (Except GoError α × World) :=
  retryLoop env operation fuel (b.Reset w.now) w

/-! ## The functions of `main.go` -/

/-- The constant `metadataServiceReadyTimeoutSeconds`. -/
def metadataServiceReadyTimeoutSeconds : Nat := 30

/-- The constant `vnicAttachmentReadyTimeoutSeconds`. -/
def vnicAttachmentReadyTimeoutSeconds : Nat := 30

/-- The constant `profileTemplatePath`. -/
def profileTemplatePath : Str := "/etc/oci-vnic/profile.tpl".toList

/-- The number of attempts granted to each retry loop of the model; 34 are
never used up under the policy of `makeBackoffPolicy` with a cap of 30 s. -/
def retryFuel : Nat := 34

/-- The function `queryVnicMacAddress`. -/
def queryVnicMacAddress (env : Env) (interfaceName : Str) (w : World) :
    Except GoError Str × World :=
  let w := emit (.logIpLinkShow interfaceName) w
  let w := emit (.execIpLinkShow interfaceName) w
  match env.ipOutput interfaceName with
  | .error err => (.error (.external err), w)
  | .ok b =>
    if b.length = 0 then (.error .emptyResult, w)
    else
      let result := b
      let w := emit (.logIpResult result) w
      (parseIpOutput env.unicodeLower result, w)

/-- The function `doRequestVnicsMetadata`: one request (the `k`-th of the
run), then the conversion of the decoded entries. -/
def doRequestVnicsMetadata (env : Env) (w : World) :
    Except GoError (List VnicMetadata) × World :=
  let w := emit .logRequesting w
  let k := w.requests
  let w := { emit (.httpGet k) w with requests := k + 1, now := w.now + env.httpCost k }
  match env.httpResult k with
  | .error err => (.error (.external err), w)
  | .ok vnicMetadataResponses =>
    let w := emit (.logVnicsMetadata vnicMetadataResponses) w
    (convertResponses env.unicodeLower vnicMetadataResponses, w)

/-- The function `makeBackoffPolicy`. -/
def makeBackoffPolicy (maxElapsedTime : Nat) (now : Nat) : ExponentialBackOff :=
  let policy := NewExponentialBackOff now
  let policy := { policy with InitialInterval := timeSecond }
  let policy := { policy with Multiplier := ⟨12, 10⟩ }
  let policy := { policy with RandomizationFactor := ⟨1, 10⟩ }
  let policy := { policy with MaxElapsedTime := maxElapsedTime }
  policy

/-- The function `requestVnicsMetadataWithRetry` (Regime A). -/
def requestVnicsMetadataWithRetry (env : Env) (w : World) :
    Option (Except GoError (List VnicMetadata) × World) :=
  let backoffPolicy := makeBackoffPolicy (timeSecond * metadataServiceReadyTimeoutSeconds) w.now
  RetryWithData env retryFuel (fun w => some (doRequestVnicsMetadata env w)) backoffPolicy w

/-- The function `doMatchVnicMetadata`. -/
def doMatchVnicMetadata (env : Env) (name mac : Str) (w : World) :
    Option (Except GoError VnicMetadata × World) :=
  let w := emit (.logMatching mac) w
  match requestVnicsMetadataWithRetry env w with
  | none => none
  | some (.error err, w) => some (.error err, w)
  | some (.ok vnicsMetadata, w) => some (scanVnicsMetadata name mac vnicsMetadata, w)

/-- The function `queryVnicMetadataWithRetry` (Regime B). -/
def queryVnicMetadataWithRetry (env : Env) (name mac : Str) (w : World) :
    Option (Except GoError VnicMetadata × World) :=
  let backoffPolicy := makeBackoffPolicy (timeSecond * vnicAttachmentReadyTimeoutSeconds) w.now
  let operation := fun w => doMatchVnicMetadata env name mac w
  RetryWithData env retryFuel operation backoffPolicy w

/-- What `os.OpenFile(path, O_CREATE|O_WRONLY, 0644)` followed by writing `out`
leaves at `path`: `out` over the start of the old content, if any. -/
def writeFile (path out : Str) (w : World) : World :=
  let old := (w.file path).getD []
  { w with files := (path, out ++ old.drop out.length) :: w.files.filter (fun p => p.1 != path) }

/-- The path `fmt.Sprintf("/etc/sysconfig/network-scripts/ifcfg-%s", name)`. -/
def profilePathOf (name : Str) : Str := "/etc/sysconfig/network-scripts/ifcfg-".toList ++ name

/-- The function `generateVnicProfile`; `os.Stat` succeeds exactly when there
is a file at the path.  The result is the error returned, `none` for `nil`. -/
def generateVnicProfile (env : Env) (metadata : VnicMetadata) (w : World) :
    Option GoError × World :=
  let profileFilePath := profilePathOf metadata.Name
  let w := emit (.stat profileFilePath) w
  if (w.file profileFilePath).isSome then
    (none, emit (.logAlreadyExists profileFilePath) w)
  else
    let w := emit (.logGenerating profileFilePath) w
    let w := emit (.parseFiles profileTemplatePath) w
    match env.parseFiles with
    | some err => (some (.external err), w)
    | none =>
      let w := emit (.openFile profileFilePath) w
      match env.openError profileFilePath with
      | some err => (some (.external err), w)
      | none =>
        let w := emit (.execute metadata) w
        let (out, err) := env.execute metadata
        (err.map GoError.external, writeFile profileFilePath out w)

/-- The call `log.Fatal(err)`: the line is logged and the process exits with
status 1; a run-time panic ends the process with status 2 instead. -/
def logFatal (err : GoError) (w : World) : Nat × World :=
  if err = .indexOutOfRange then (2, emit .crash w) else (1, emit (.fatal err) w)

/-- The function `main`, on the argument vector `osArgs`: the exit status and
the final state, `none` if a retry loop of the model ran out of attempts. -/
def main (env : Env) (osArgs : List Str) (w : World) : Option (Nat × World) :=
  if osArgs.length ≠ 2 then some (1, emit .fatalUsage w)
  else
    match indexAt osArgs 1 with
    | none => some (2, emit .crash w)
    | some interfaceName =>
      match queryVnicMacAddress env interfaceName w with
      | (.error err, w) => some (logFatal err w)
      | (.ok mac, w) =>
        match queryVnicMetadataWithRetry env interfaceName mac w with
        | none => none
        | some (.error err, w) => some (logFatal err w)
        | some (.ok metadata, w) =>
          let w := emit (.logMatched metadata) w
          match generateVnicProfile env metadata w with
          | (some err, w) => some (logFatal err w)
          | (none, w) => some (0, w)

/-! ## Definitions that follow the words of the specification -/

/-- Go `strings.Join(ps, sep)` for a one-character separator. -/
def joinWith (sep : Char) : List Str → Str
  | [] => []
  | [p] => p
  | p :: q :: ps => p ++ sep :: joinWith sep (q :: ps)

/-- The specification's case-insensitive equality: the two strings have the
same lowercase form. -/
def equalsIgnoreCase (tbl : Char → Char) (a b : Str) : Prop := ToLower tbl a = ToLower tbl b

/-- The specification's "whitespace-separated tokens" of a line: its maximal
runs of characters that are not white space (`cur` is the run being read, in
reverse). -/
def fieldsAux : Str → Str → List Str
  | [], cur => if cur = [] then [] else [cur.reverse]
  | c :: cs, cur =>
    if isSpace c then
      if cur = [] then fieldsAux cs [] else cur.reverse :: fieldsAux cs []
    else fieldsAux cs (c :: cur)

/-- The specification's "whitespace-separated tokens". -/
def fields (s : Str) : List Str := fieldsAux s []

/-- The specification's "last non-empty line" of an output: the last of its
lines that holds a character other than white space, if any. -/
def lastNonEmptyLine (b : Str) : Option Str :=
  ((Split b '\n').filter (fun l => l.any (fun c => !isSpace c))).getLast?

/-- The specification's condition on the output of the link-inspection
command: the last non-empty line consists of exactly 4 whitespace-separated
tokens whose first token is `link/ether`. -/
def specParses (b : Str) : Bool :=
  match lastNonEmptyLine b with
  | none => false
  | some l => (fields l).length == 4 && (fields l).head? == some "link/ether".toList

/-- The specification's result on such an output: the second token of that
line. -/
def specAddress (b : Str) : Option Str :=
  match lastNonEmptyLine b with
  | none => none
  | some l => (fields l).get? 1

/-- The last piece of `Split s sep`. -/
def lastPiece (s : Str) (sep : Char) : Str := ((Split s sep).getLast?).getD []

/-- The record that `convertEntry` builds (lemma `convertEntry_eq`). -/
def convertedEntry (tbl : Char → Char) (idx : Nat) (r : VnicMetadataResponse) : VnicMetadata :=
  { VnicIndex := idx
    Name := []
    MacAddr := ToLower tbl r.MacAddr
    PrivateIp := r.PrivateIp
    SubnetMaskLength := lastPiece r.SubnetCidrBlock '/'
    VirtualRouterIp := r.VirtualRouterIp
    IPv6Addresses := r.IPv6Addresses
    IPv6SubnetMaskLength := if r.IPv6Addresses = [] then [] else lastPiece r.IPv6SubnetCidrBlock '/'
    IPv6VirtualRouterIp := if r.IPv6Addresses = [] then [] else r.IPv6VirtualRouterIp }

/-- The records that `convertLoop` appends (lemma `convertLoop_eq`). -/
def convertedFrom (tbl : Char → Char) : Nat → List VnicMetadataResponse → List VnicMetadata
  | _, [] => []
  | idx, r :: rs => convertedEntry tbl idx r :: convertedFrom tbl (idx + 1) rs

/-- The line `l` is `link/ether` followed by the three pieces `x`, `y`, `z`,
each preceded by one space character and none holding a space character. -/
def isEtherLine (l x y z : Str) : Prop :=
  ' ' ∉ x ∧ ' ' ∉ y ∧ ' ' ∉ z ∧ l = "link/ether".toList ++ ' ' :: (x ++ ' ' :: (y ++ ' ' :: z))

/-- The events of the profile emitter (`generateVnicProfile`). -/
def Event.isProfileEvent : Event → Bool
  | .stat _ => true
  | .logAlreadyExists _ => true
  | .logGenerating _ => true
  | .parseFiles _ => true
  | .openFile _ => true
  | .execute _ => true
  | _ => false

/-- The events of fetching, matching and waiting (Regimes A and B). -/
def Event.isRetryEvent : Event → Bool
  | .logRequesting => true
  | .httpGet _ => true
  | .logVnicsMetadata _ => true
  | .logMatching _ => true
  | .sleep _ => true
  | .backoffStop _ _ => true
  | _ => false

/-- The state `w2` comes after `w1` by steps that leave the files alone, let
the clock and the request count only grow, and record only events of
fetching, matching and waiting. -/
def Advances (w1 w2 : World) : Prop :=
  w2.files = w1.files ∧ w1.now ≤ w2.now ∧ w1.requests ≤ w2.requests ∧
    ∃ evs, w2.log = w1.log ++ evs ∧ ∀ e ∈ evs, e.isRetryEvent = true

/-- One round of the retry loop that goes round again, on a state of the loop
(attempts left, policy, state of the run): the attempt fails, the policy
grants a delay and the loop waits. -/
def loopRound {α : Type} (env : Env) (operation : World → Option (Except GoError α × World)) :
    Nat × ExponentialBackOff × World → Option (Nat × ExponentialBackOff × World)
  | (0, _, _) => none
  | (fuel + 1, b, w) =>
    match operation w with
    | some (.error err, w) =>
      if err = .indexOutOfRange then none
      else
        match NextBackOff env b w with
        | (none, _, _) => none
        | (some next, b, w) => some (fuel, b, sleep next w)
    | _ => none

/-- The states of the loop that a run of the loop started in `s` comes to. -/
inductive Reaches {α : Type} (env : Env) (operation : World → Option (Except GoError α × World))
    (s : Nat × ExponentialBackOff × World) : Nat × ExponentialBackOff × World → Prop where
  | start : Reaches env operation s s
  | round (t u : Nat × ExponentialBackOff × World) :
      Reaches env operation s t → loopRound env operation t = some u → Reaches env operation s u

/-- The policy `b` is a state of the policy built by `makeBackoffPolicy cap`:
its constants are those set there and its interval is at least the initial
one. -/
def PolicyOf (cap : Nat) (b : ExponentialBackOff) : Prop :=
  b.RandomizationFactor = ⟨1, 10⟩ ∧ b.Multiplier = ⟨12, 10⟩ ∧ b.MaxInterval = 60 * timeSecond ∧
    b.MaxElapsedTime = cap ∧ cap ≠ 0 ∧ timeSecond ≤ b.currentInterval

/-- What holds of every state of the loop that a run under the policy of
`makeBackoffPolicy cap` started at time `start` comes to: the policy is a
state of that policy, time has not gone back, at least one attempt is left,
and the attempts left, at 0.9 s each, reach over the cap. -/
def LoopInv (cap start : Nat) (s : Nat × ExponentialBackOff × World) : Prop :=
  PolicyOf cap s.2.1 ∧ s.2.1.startTime = start ∧ start ≤ s.2.2.now ∧
    cap < (s.2.2.now - start) + s.1 * 900000000 ∧ 1 ≤ s.1

instance (tbl : Char → Char) (a b : Str) : Decidable (equalsIgnoreCase tbl a b) := by
  unfold equalsIgnoreCase
  infer_instance

instance (l x y z : Str) : Decidable (isEtherLine l x y z) := by
  unfold isEtherLine
  infer_instance

/-- All requests to the endpoint from the `k0`-th on are answered with entries
that decode. -/
def AllAnswered (env : Env) (k0 : Nat) : Prop :=
  ∀ k, k0 ≤ k → ∃ rs, env.httpResult k = .ok rs

/-- What a fetch returns when no response holds the address `m`: the error of
a request that failed, or records none of which has the address. -/
def FetchWithoutMatch (env : Env) (k0 : Nat) (m : Str)
    (ra : Except GoError (List VnicMetadata)) : Prop :=
  ((∃ t, ra = .error (.external t)) ∧ ¬ AllAnswered env k0) ∨
    (∃ ms, ra = .ok ms ∧ ∀ x ∈ ms, x.MacAddr ≠ m)

/-- What a match returns when no response holds the address: the not-matched
error, or the error of a request that failed. -/
def MatchWithoutMatch (env : Env) (k0 : Nat) (r : Except GoError VnicMetadata) : Prop :=
  ∃ e, r = .error e ∧ (e = .notMatched ∨ ((∃ t, e = .external t) ∧ ¬ AllAnswered env k0))

/-- The specification's "lowercase of", for one code point and stated without
`strings.ToLower`: `d` is the lowercase of `c` when `c` is an ASCII capital
letter and `d` is the code point 32 above it, or `c` is another ASCII code
point and `d` is `c`, or `c` is beyond ASCII and `d` is where the case table
sends `c`. -/
def isLowercaseOf (tbl : Char → Char) (c d : Char) : Prop :=
  if c.toNat ≤ 127 then
    if 65 ≤ c.toNat ∧ c.toNat ≤ 90 then d.toNat = c.toNat + 32 else d = c
  else d = tbl c

/-- No response of the endpoint, from the `k0`-th request on, holds an entry
whose lowercased `macAddr` is `m`. -/
def NoResponseMatches (env : Env) (k0 : Nat) (m : Str) : Prop :=
  ∀ k rs, k0 ≤ k → env.httpResult k = .ok rs →
    ∀ r ∈ rs, ToLower env.unicodeLower r.MacAddr ≠ m

/-! ## Concrete inputs -/

/-- A state at time 0 with no file and nothing recorded. -/
def emptyWorld : World := { now := 0, requests := 0, draws := 0, files := [], log := [] }

/-- An environment in which the `ip` command prints `out`, every request to
the endpoint takes 1 ms and is answered by `answer k`, the random source
always draws 0, and the template engine and the file system never refuse. -/
def sampleEnv (out : Str) (answer : Nat → Except Nat (List VnicMetadataResponse)) : Env :=
  { unicodeLower := fun c => c
    ipOutput := fun _ => .ok out
    httpResult := answer
    httpCost := fun _ => 1000000
    random := fun _ => 0
    parseFiles := none
    openError := fun _ => none
    execute := fun m => (m.Name ++ m.MacAddr, none) }

/-- A usual output of `ip link show dev ens5`. -/
def sampleIpOutput : Str :=
  "3: ens5: <BROADCAST,MULTICAST,UP> mtu 9000\n    link/ether 02:00:17:0A:bc:4d brd ff:ff:ff:ff:ff:ff\n".toList

/-- A metadata entry with the address of `sampleIpOutput` in upper case. -/
def sampleEntry : VnicMetadataResponse :=
  { MacAddr := "02:00:17:0A:BC:4D".toList
    PrivateIp := "10.0.1.7".toList
    SubnetCidrBlock := "10.0.1.0/24".toList
    VirtualRouterIp := "10.0.1.1".toList
    IPv6Addresses := []
    IPv6SubnetCidrBlock := "fd00::/64".toList
    IPv6VirtualRouterIp := "fe80::1".toList }

/-- A metadata entry of another interface. -/
def otherEntry : VnicMetadataResponse :=
  { MacAddr := "02:00:17:00:00:01".toList
    PrivateIp := "10.0.0.2".toList
    SubnetCidrBlock := "10.0.0.0".toList
    VirtualRouterIp := "10.0.0.1".toList
    IPv6Addresses := ["fd00::2".toList, "fd00::3".toList]
    IPv6SubnetCidrBlock := "fd00::/64".toList
    IPv6VirtualRouterIp := "fe80::1".toList }

/-- The record of `sampleEntry` once matched for `ens5`. -/
def sampleMetadata : VnicMetadata :=
  { VnicIndex := 1
    Name := "ens5".toList
    MacAddr := "02:00:17:0a:bc:4d".toList
    PrivateIp := "10.0.1.7".toList
    SubnetMaskLength := "24".toList
    VirtualRouterIp := "10.0.1.1".toList
    IPv6Addresses := []
    IPv6SubnetMaskLength := []
    IPv6VirtualRouterIp := [] }

/-- A state in which the profile of `ens5` is already there. -/
def configuredWorld : World :=
  { emptyWorld with files := [(profilePathOf "ens5".toList, "DEVICE=ens5".toList)] }

/-- An environment in which every request to the endpoint fails after 31 s. -/
def slowEnv : Env :=
  { sampleEnv sampleIpOutput (fun _ => .error 7) with httpCost := fun _ => 31 * timeSecond }

/-- An environment in which the first 12 requests to the endpoint fail and
the later ones are answered with the entry of another interface. -/
def flakyEnv : Env :=
  sampleEnv sampleIpOutput (fun k => if k < 12 then .error 7 else .ok [otherEntry])

/-- An environment in which every request to the endpoint is answered with the
entry of another interface. -/
def unmatchedEnv : Env := sampleEnv sampleIpOutput (fun _ => .ok [otherEntry])

/-! ## Lemmas on the string functions -/

theorem Split_ne_nil (s : Str) (sep : Char) : Split s sep ≠ [] := by
  induction s with
  | nil => simp [Split]
  | cons c cs ih =>
    simp only [Split]
    split_ifs
    · simp
    · split <;> simp

theorem Split_join (s : Str) (sep : Char) : joinWith sep (Split s sep) = s := by
  induction s with
  | nil => simp [Split, joinWith]
  | cons c cs ih =>
    simp only [Split]
    split_ifs with h
    · have hne := Split_ne_nil cs sep
      cases hs : Split cs sep with
      | nil => exact absurd hs hne
      | cons p ps =>
        rw [hs] at ih
        simp [joinWith, ih, h]
    · cases hs : Split cs sep with
      | nil => exact absurd hs (Split_ne_nil cs sep)
      | cons p ps =>
        rw [hs] at ih
        cases ps with
        | nil => simpa [joinWith] using ih
        | cons q qs => simp only [joinWith] at ih ⊢; simp [← ih]

theorem Split_noSep (s : Str) (sep : Char) : ∀ p ∈ Split s sep, sep ∉ p := by
  induction s with
  | nil => simp [Split]
  | cons c cs ih =>
    simp only [Split]
    split_ifs with h
    · intro p hp
      rcases List.mem_cons.mp hp with rfl | hp
      · simp
      · exact ih p hp
    · cases hs : Split cs sep with
      | nil => exact absurd hs (Split_ne_nil cs sep)
      | cons p ps =>
        rw [hs] at ih
        intro q hq
        rcases List.mem_cons.mp hq with rfl | hq
        · intro hmem
          rcases List.mem_cons.mp hmem with heq | hmem
          · exact h heq.symm
          · exact ih p (List.mem_cons_self _ _) hmem
        · exact ih q (List.mem_cons_of_mem _ hq)

theorem Split_of_not_mem (p : Str) (sep : Char) (h : sep ∉ p) : Split p sep = [p] := by
  induction p with
  | nil => simp [Split]
  | cons c cs ih =>
    have hc : c ≠ sep := fun e => h (by simp [e])
    have hcs : sep ∉ cs := fun e => h (List.mem_cons_of_mem _ e)
    simp [Split, hc, ih hcs]

theorem Split_append_sep (p rest : Str) (sep : Char) (h : sep ∉ p) :
    Split (p ++ sep :: rest) sep = p :: Split rest sep := by
  induction p with
  | nil => simp [Split]
  | cons c cs ih =>
    have hc : c ≠ sep := fun e => h (by simp [e])
    have hcs : sep ∉ cs := fun e => h (List.mem_cons_of_mem _ e)
    simp [Split, hc, ih hcs]

theorem Split_joinWith (sep : Char) (ps : List Str) (hne : ps ≠ [])
    (h : ∀ p ∈ ps, sep ∉ p) : Split (joinWith sep ps) sep = ps := by
  induction ps with
  | nil => exact absurd rfl hne
  | cons p ps ih =>
    cases ps with
    | nil => simpa [joinWith] using Split_of_not_mem p sep (h p (List.mem_cons_self _ _))
    | cons q qs =>
      simp only [joinWith]
      rw [Split_append_sep _ _ _ (h p (List.mem_cons_self _ _)),
        ih (by simp) (fun x hx => h x (List.mem_cons_of_mem _ hx))]

theorem joinWith_getLast (sep : Char) (ps : List Str) (hne : ps ≠ []) :
    joinWith sep ps = ps.getLast hne ∨ ∃ pre, joinWith sep ps = pre ++ sep :: ps.getLast hne := by
  induction ps with
  | nil => exact absurd rfl hne
  | cons p ps ih =>
    cases ps with
    | nil => left; simp [joinWith]
    | cons q qs =>
      right
      simp only [joinWith]
      rw [List.getLast_cons (by simp)]
      rcases ih (by simp) with h | ⟨pre, h⟩
      · exact ⟨p, by rw [h]⟩
      · exact ⟨p ++ sep :: pre, by rw [h]; simp⟩

theorem indexAt_last {α : Type} (xs : List α) (h : xs ≠ []) :
    indexAt xs ((xs.length : Int) - 1) = some (xs.getLast h) := by
  have hpos : 0 < xs.length := List.length_pos.mpr h
  have h0 : (0 : Int) ≤ (xs.length : Int) - 1 := by omega
  have h1 : ((xs.length : Int) - 1).toNat = xs.length - 1 := by omega
  simp only [indexAt, h0, if_true, h1]
  rw [List.get?_eq_getElem?, List.getLast_eq_getElem, List.getElem?_eq_getElem]

/-- The last piece of a split: it holds no separator, and the string is that
piece alone or ends with the separator followed by that piece. -/
theorem Split_last (s : Str) (sep : Char) :
    ∃ l, indexAt (Split s sep) (((Split s sep).length : Int) - 1) = some l ∧ sep ∉ l ∧
      ((sep ∉ s ∧ l = s) ∨ ∃ pre, s = pre ++ sep :: l) := by
  have hne := Split_ne_nil s sep
  refine ⟨(Split s sep).getLast hne, indexAt_last _ hne, ?_, ?_⟩
  · exact Split_noSep s sep _ (List.getLast_mem hne)
  · by_cases hs : sep ∈ s
    · right
      rcases joinWith_getLast sep (Split s sep) hne with h | ⟨pre, h⟩
      · rw [Split_join] at h
        exact absurd (h ▸ hs) (Split_noSep s sep _ (List.getLast_mem hne))
      · rw [Split_join] at h
        exact ⟨pre, h⟩
    · left
      refine ⟨hs, ?_⟩
      simp [Split_of_not_mem s sep hs]

theorem lastPiece_eq (s : Str) (sep : Char) :
    indexAt (Split s sep) (((Split s sep).length : Int) - 1) = some (lastPiece s sep) := by
  have hne := Split_ne_nil s sep
  rw [indexAt_last _ hne, lastPiece, List.getLast?_eq_getLast _ hne]
  rfl

theorem convertEntry_eq (tbl : Char → Char) (idx : Nat) (r : VnicMetadataResponse) :
    convertEntry tbl idx r = .ok (convertedEntry tbl idx r) := by
  unfold convertEntry convertedEntry
  simp only [lastPiece_eq]
  by_cases h : r.IPv6Addresses = []
  · simp [h]
  · have hpos : r.IPv6Addresses.length > 0 := List.length_pos.mpr h
    simp [h, hpos]

theorem convertLoop_eq (tbl : Char → Char) (rs : List VnicMetadataResponse) :
    ∀ (idx : Nat) (acc : List VnicMetadata),
      convertLoop tbl idx acc rs = .ok (acc ++ convertedFrom tbl idx rs) := by
  induction rs with
  | nil => intro idx acc; simp [convertLoop, convertedFrom]
  | cons r rs ih =>
    intro idx acc
    simp [convertLoop, convertedFrom, convertEntry_eq, ih]

theorem convertResponses_eq (tbl : Char → Char) (rs : List VnicMetadataResponse) :
    convertResponses tbl rs = .ok (convertedFrom tbl 0 rs) := by
  simp [convertResponses, convertLoop_eq]

theorem convertedFrom_length (tbl : Char → Char) (rs : List VnicMetadataResponse) :
    ∀ idx, (convertedFrom tbl idx rs).length = rs.length := by
  induction rs with
  | nil => intro idx; rfl
  | cons r rs ih => intro idx; simp [convertedFrom, ih]

theorem convertedFrom_get? (tbl : Char → Char) (rs : List VnicMetadataResponse) :
    ∀ idx k, (convertedFrom tbl idx rs).get? k = (rs.get? k).map (convertedEntry tbl (idx + k)) := by
  induction rs with
  | nil => intro idx k; simp [convertedFrom]
  | cons r rs ih =>
    intro idx k
    cases k with
    | zero => simp [convertedFrom]
    | succ k =>
      have e : idx + 1 + k = idx + (k + 1) := by omega
      simp only [convertedFrom, List.get?_cons_succ, ih, e]

theorem convertedFrom_append (tbl : Char → Char) (pre post : List VnicMetadataResponse) :
    ∀ idx, convertedFrom tbl idx (pre ++ post) =
      convertedFrom tbl idx pre ++ convertedFrom tbl (idx + pre.length) post := by
  induction pre with
  | nil => intro idx; simp [convertedFrom]
  | cons r rs ih =>
    intro idx
    have e : idx + 1 + rs.length = idx + (rs.length + 1) := by omega
    show convertedFrom tbl idx (r :: (rs ++ post)) = _
    simp only [List.cons_append, convertedFrom, ih, List.length_cons, e]

theorem scan_skip (name mac : Str) (xs ys : List VnicMetadata)
    (h : ∀ x ∈ xs, x.MacAddr ≠ mac) :
    scanVnicsMetadata name mac (xs ++ ys) = scanVnicsMetadata name mac ys := by
  induction xs with
  | nil => rfl
  | cons x xs ih =>
    have hx : x.MacAddr ≠ mac := h x (List.mem_cons_self _ _)
    simp only [List.cons_append, scanVnicsMetadata, hx, if_false]
    exact ih (fun y hy => h y (List.mem_cons_of_mem _ hy))

theorem convertedFrom_macAddr (tbl : Char → Char) (rs : List VnicMetadataResponse) :
    ∀ idx, ∀ x ∈ convertedFrom tbl idx rs, ∃ r ∈ rs, x.MacAddr = ToLower tbl r.MacAddr := by
  induction rs with
  | nil => intro idx x hx; simp [convertedFrom] at hx
  | cons r rs ih =>
    intro idx x hx
    simp only [convertedFrom, List.mem_cons] at hx
    rcases hx with rfl | hx
    · exact ⟨r, List.mem_cons_self _ _, rfl⟩
    · obtain ⟨r', hr', h⟩ := ih _ x hx
      exact ⟨r', List.mem_cons_of_mem _ hr', h⟩

theorem scan_none (name mac : Str) (xs : List VnicMetadata)
    (h : ∀ x ∈ xs, x.MacAddr ≠ mac) :
    scanVnicsMetadata name mac xs = .error .notMatched := by
  have := scan_skip name mac xs [] h
  simpa [scanVnicsMetadata] using this

theorem ToLower_idem (tbl : Char → Char)
    (hT : ∀ c, unicodeToLower tbl (unicodeToLower tbl c) = unicodeToLower tbl c) (s : Str) :
    ToLower tbl (ToLower tbl s) = ToLower tbl s := by
  simp [ToLower, List.map_map, Function.comp_def, hT]

theorem parseIpOutput_lower (tbl : Char → Char) (b m : Str)
    (h : parseIpOutput tbl b = .ok m) : ∃ p, m = ToLower tbl p := by
  unfold parseIpOutput at h
  simp only at h
  split at h
  · cases h
  · split_ifs at h
    split at h
    · cases h
    · split_ifs at h
      split at h
      · cases h
      · rename_i p1 _
        exact ⟨p1, by cases h; rfl⟩

theorem joinWith_append_singleton (sep : Char) (qs : List Str) (l : Str) (hne : qs ≠ []) :
    joinWith sep (qs ++ [l]) = joinWith sep qs ++ sep :: l := by
  induction qs with
  | nil => exact absurd rfl hne
  | cons q qs ih =>
    cases qs with
    | nil => simp [joinWith]
    | cons q2 qs =>
      have := ih (by simp)
      show q ++ sep :: joinWith sep (q2 :: qs ++ [l]) = _
      rw [this]
      simp [joinWith]

theorem lastPiece_unique (s l : Str) (sep : Char) (hl : sep ∉ l)
    (h : s = l ∨ ∃ pre, s = pre ++ sep :: l) : lastPiece s sep = l := by
  rcases h with rfl | ⟨pre, rfl⟩
  · simp [lastPiece, Split_of_not_mem _ _ hl]
  · have hne := Split_ne_nil pre sep
    have hjoin : pre ++ sep :: l = joinWith sep (Split pre sep ++ [l]) := by
      rw [joinWith_append_singleton _ _ _ hne, Split_join]
    have hall : ∀ p ∈ Split pre sep ++ [l], sep ∉ p := by
      intro p hp
      rcases List.mem_append.mp hp with hp | hp
      · exact Split_noSep pre sep p hp
      · simp only [List.mem_singleton] at hp
        exact hp ▸ hl
    rw [lastPiece, hjoin, Split_joinWith sep _ (by simp) hall]
    simp

theorem parseIpOutput_eq (tbl : Char → Char) (b : Str) :
    parseIpOutput tbl b =
      match Split (TrimSpace (lastPiece (TrimSpace b) '\n')) ' ' with
      | [p0, p1, _, _] =>
        if p0 = "link/ether".toList then .ok (ToLower tbl p1) else .error .parseMacAddress
      | _ => .error .parseMacAddress := by
  unfold parseIpOutput
  simp only [lastPiece_eq]
  rcases Split (TrimSpace (lastPiece (TrimSpace b) '\n')) ' ' with
    _ | ⟨p0, _ | ⟨p1, _ | ⟨p2, _ | ⟨p3, _ | ⟨p4, ps⟩⟩⟩⟩⟩
  all_goals simp [indexAt]

theorem parseIpOutput_of_isEtherLine (tbl : Char → Char) (b l x y z : Str)
    (hl : '\n' ∉ l) (hlast : TrimSpace b = l ∨ ∃ pre, TrimSpace b = pre ++ '\n' :: l)
    (h : isEtherLine (TrimSpace l) x y z) : parseIpOutput tbl b = .ok (ToLower tbl x) := by
  obtain ⟨hx, hy, hz, hform⟩ := h
  have hsplit : Split (TrimSpace l) ' ' = ["link/ether".toList, x, y, z] := by
    have hj : TrimSpace l = joinWith ' ' ["link/ether".toList, x, y, z] := by
      rw [hform]; simp [joinWith]
    rw [hj]
    apply Split_joinWith _ _ (by simp)
    intro p hp
    simp only [List.mem_cons, List.mem_singleton, List.not_mem_nil, or_false] at hp
    rcases hp with rfl | rfl | rfl | rfl
    · decide
    · exact hx
    · exact hy
    · exact hz
  rw [parseIpOutput_eq tbl b, lastPiece_unique _ l _ hl hlast, hsplit]
  simp

theorem parseIpOutput_not_isEtherLine (tbl : Char → Char) (b l : Str)
    (hl : '\n' ∉ l) (hlast : TrimSpace b = l ∨ ∃ pre, TrimSpace b = pre ++ '\n' :: l)
    (h : ¬ ∃ x y z, isEtherLine (TrimSpace l) x y z) :
    parseIpOutput tbl b = .error .parseMacAddress := by
  rw [parseIpOutput_eq tbl b, lastPiece_unique _ l _ hl hlast]
  have hjoin := Split_join (TrimSpace l) ' '
  have hno := Split_noSep (TrimSpace l) ' '
  rcases hs : Split (TrimSpace l) ' ' with
    _ | ⟨p0, _ | ⟨p1, _ | ⟨p2, _ | ⟨p3, _ | ⟨p4, ps⟩⟩⟩⟩⟩
  all_goals try simp
  intro hp0
  apply h
  rw [hs] at hjoin hno
  refine ⟨p1, p2, p3, hno p1 (by simp), hno p2 (by simp), hno p3 (by simp), ?_⟩
  rw [← hjoin, hp0]
  simp [joinWith]

theorem TrimSpace_all_space (b : Str) (h : ∀ c ∈ b, isSpace c = true) : TrimSpace b = [] := by
  have : trimLeft b = [] := by
    unfold trimLeft
    rw [List.dropWhile_eq_nil_iff]
    exact h
  simp [TrimSpace, this, trimRight]

theorem queryVnicMacAddress_fst (env : Env) (n b : Str) (w : World)
    (hout : env.ipOutput n = .ok b) (hb : b ≠ []) :
    (queryVnicMacAddress env n w).1 = parseIpOutput env.unicodeLower b := by
  have hlen : b.length ≠ 0 := fun h => hb (List.length_eq_zero.mp h)
  simp [queryVnicMacAddress, hout, hlen]

theorem parseIpOutput_no_panic (tbl : Char → Char) (b : Str) :
    parseIpOutput tbl b ≠ .error .indexOutOfRange := by
  rw [parseIpOutput_eq tbl b]
  split
  · split_ifs <;> simp
  · simp

/-! ## The claims on parsing and conversion -/

/-- C2, as stated, fails in both directions.  On the one-line output
`link/ether`, tab, address, tab, `brd`, tab, address, the last non-empty line
consists of exactly 4 whitespace-separated tokens whose first is `link/ether`,
yet `queryVnicMacAddress` returns the parse error.  On the output
`link/ether`, two spaces, `brd`, space, address, the line has 3
whitespace-separated tokens, yet `queryVnicMacAddress` succeeds, with the
empty address. -/
theorem C2_counterexample :
    (specParses "link/ether\t02:00:17:0a:bc:4d\tbrd\tff:ff:ff:ff:ff:ff".toList = true ∧
      (queryVnicMacAddress
          (sampleEnv "link/ether\t02:00:17:0a:bc:4d\tbrd\tff:ff:ff:ff:ff:ff".toList
            (fun _ => .ok []))
          "ens5".toList emptyWorld).1 = .error .parseMacAddress) ∧
    (specParses "link/ether  brd ff:ff:ff:ff:ff:ff".toList = false ∧
      (queryVnicMacAddress
          (sampleEnv "link/ether  brd ff:ff:ff:ff:ff:ff".toList (fun _ => .ok []))
          "ens5".toList emptyWorld).1 = .ok []) := by
  decide

/-- C2, amended: for every non-empty output `b` of the link-inspection command,
with `l` the last line of `b` trimmed of surrounding white space (the part of
the trimmed output after its last newline, or all of it), `queryVnicMacAddress`
succeeds exactly when `l`, trimmed, is `link/ether` followed by three pieces
each preceded by one space character and none holding a space character; the
result is then the first of the three pieces in lowercase, and in every other
case the error `failed to parse mac address` is returned. -/
theorem C2_queryVnicMacAddress_parse (env : Env) (n b l : Str) (w : World)
    (hout : env.ipOutput n = .ok b) (hb : b ≠ []) (hl : '\n' ∉ l)
    (hlast : TrimSpace b = l ∨ ∃ pre, TrimSpace b = pre ++ '\n' :: l) :
    (∀ x y z, isEtherLine (TrimSpace l) x y z →
        (queryVnicMacAddress env n w).1 = .ok (ToLower env.unicodeLower x)) ∧
    ((¬ ∃ x y z, isEtherLine (TrimSpace l) x y z) →
        (queryVnicMacAddress env n w).1 = .error .parseMacAddress) := by
  rw [queryVnicMacAddress_fst env n b w hout hb]
  exact ⟨fun x y z h => parseIpOutput_of_isEtherLine _ b l x y z hl hlast h,
    fun h => parseIpOutput_not_isEtherLine _ b l hl hlast h⟩

/-- C2, amended, on the usual output of `ip link show dev ens5`: the address
of the `link/ether` line is returned in lowercase. -/
theorem C2_queryVnicMacAddress_parse_witness :
    (queryVnicMacAddress (sampleEnv sampleIpOutput (fun _ => .ok [])) "ens5".toList emptyWorld).1
      = .ok "02:00:17:0a:bc:4d".toList :=
  (C2_queryVnicMacAddress_parse (sampleEnv sampleIpOutput (fun _ => .ok [])) "ens5".toList
    sampleIpOutput "    link/ether 02:00:17:0A:bc:4d brd ff:ff:ff:ff:ff:ff".toList emptyWorld
    rfl (by decide) (by decide)
    (Or.inr ⟨"3: ens5: <BROADCAST,MULTICAST,UP> mtu 9000".toList, by decide⟩)).1
    "02:00:17:0A:bc:4d".toList "brd".toList "ff:ff:ff:ff:ff:ff".toList
    ⟨by decide, by decide, by decide, by decide⟩

/-- C6: for every `subnetCidrBlock` string the conversion of the entry
succeeds, and the `SubnetMaskLength` of the record holds no `/` and is the
string itself when the string holds no `/`, and otherwise the part of the
string after its last `/`. -/
theorem C6_subnetMaskLength (tbl : Char → Char) (idx : Nat) (r : VnicMetadataResponse) :
    ∃ m, convertEntry tbl idx r = .ok m ∧ '/' ∉ m.SubnetMaskLength ∧
      (('/' ∉ r.SubnetCidrBlock ∧ m.SubnetMaskLength = r.SubnetCidrBlock) ∨
        ('/' ∈ r.SubnetCidrBlock ∧
          ∃ pre, r.SubnetCidrBlock = pre ++ '/' :: m.SubnetMaskLength)) := by
  refine ⟨convertedEntry tbl idx r, convertEntry_eq tbl idx r, ?_⟩
  obtain ⟨l, hl, hno, hcase⟩ := Split_last r.SubnetCidrBlock '/'
  rw [lastPiece_eq] at hl
  have hl' : lastPiece r.SubnetCidrBlock '/' = l := Option.some.inj hl
  simp only [convertedEntry, hl']
  refine ⟨hno, ?_⟩
  rcases hcase with h | ⟨pre, h⟩
  · exact Or.inl h
  · exact Or.inr ⟨by rw [h]; simp, pre, h⟩

/-- C7: the conversion of an entry succeeds; when the entry has no IPv6
address the three IPv6 fields of the record are empty, whatever its
`ipv6SubnetCidrBlock` and `ipv6VirtualRouterIp`; when it has one,
`IPv6Addresses` is the list of the entry, `IPv6VirtualRouterIp` is copied, and
`IPv6SubnetMaskLength` holds no `/` and is the part of `ipv6SubnetCidrBlock`
after its last `/` (all of it when it holds none). -/
theorem C7_ipv6_fields (tbl : Char → Char) (idx : Nat) (r : VnicMetadataResponse) :
    ∃ m, convertEntry tbl idx r = .ok m ∧
      ((r.IPv6Addresses = [] ∧ m.IPv6Addresses = [] ∧ m.IPv6SubnetMaskLength = [] ∧
          m.IPv6VirtualRouterIp = []) ∨
        (r.IPv6Addresses ≠ [] ∧ m.IPv6Addresses = r.IPv6Addresses ∧
          m.IPv6VirtualRouterIp = r.IPv6VirtualRouterIp ∧ '/' ∉ m.IPv6SubnetMaskLength ∧
          (('/' ∉ r.IPv6SubnetCidrBlock ∧ m.IPv6SubnetMaskLength = r.IPv6SubnetCidrBlock) ∨
            ∃ pre, r.IPv6SubnetCidrBlock = pre ++ '/' :: m.IPv6SubnetMaskLength))) := by
  refine ⟨convertedEntry tbl idx r, convertEntry_eq tbl idx r, ?_⟩
  by_cases h : r.IPv6Addresses = []
  · left
    simp [convertedEntry, h]
  · right
    obtain ⟨l, hl, hno, hcase⟩ := Split_last r.IPv6SubnetCidrBlock '/'
    rw [lastPiece_eq] at hl
    have hl' : lastPiece r.IPv6SubnetCidrBlock '/' = l := Option.some.inj hl
    simp only [convertedEntry, h, if_false, hl']
    exact ⟨fun e => h e, trivial, trivial, hno, hcase⟩

/-! ## Lemmas on the retry loop -/

theorem Advances.refl (w : World) : Advances w w :=
  ⟨rfl, le_refl _, le_refl _, [], by simp, by simp⟩

theorem Advances.trans {w1 w2 w3 : World} (h12 : Advances w1 w2) (h23 : Advances w2 w3) :
    Advances w1 w3 := by
  obtain ⟨hf1, hn1, hr1, evs1, hl1, he1⟩ := h12
  obtain ⟨hf2, hn2, hr2, evs2, hl2, he2⟩ := h23
  refine ⟨hf2.trans hf1, le_trans hn1 hn2, le_trans hr1 hr2, evs1 ++ evs2, ?_, ?_⟩
  · rw [hl2, hl1, List.append_assoc]
  · intro e he
    rcases List.mem_append.mp he with h | h
    · exact he1 e h
    · exact he2 e h

theorem advances_emit (e : Event) (w : World) (h : e.isRetryEvent = true) :
    Advances w (emit e w) :=
  ⟨rfl, le_refl _, le_refl _, [e], rfl, by simpa using h⟩

theorem doRequestVnicsMetadata_advances (env : Env) (w : World) :
    Advances w (doRequestVnicsMetadata env w).2 := by
  simp only [doRequestVnicsMetadata, OciVnic.emit]
  cases env.httpResult w.requests with
  | error t =>
    exact ⟨rfl, Nat.le_add_right _ _, Nat.le_succ _, [.logRequesting, .httpGet w.requests],
      by simp, by simp [Event.isRetryEvent]⟩
  | ok rs =>
    exact ⟨rfl, Nat.le_add_right _ _, Nat.le_succ _,
      [.logRequesting, .httpGet w.requests, .logVnicsMetadata rs],
      by simp, by simp [Event.isRetryEvent]⟩

theorem getRandomValueFromInterval_ge (r cur : Nat) (h : timeSecond ≤ cur) :
    900000000 ≤ getRandomValueFromInterval ⟨1, 10⟩ r cur := by
  unfold timeSecond at h
  simp only [getRandomValueFromInterval]
  norm_num
  rw [Nat.le_div_iff_mul_le (by norm_num)]
  have : 0 ≤ r % 9007199254740992 * (2 * cur + 10) := Nat.zero_le _
  omega

theorem PolicyOf.increment {cap : Nat} {b : ExponentialBackOff} (h : PolicyOf cap b) :
    PolicyOf cap b.incrementCurrentInterval ∧
      b.incrementCurrentInterval.startTime = b.startTime := by
  obtain ⟨h1, h2, h3, h4, h5, h6⟩ := h
  unfold ExponentialBackOff.incrementCurrentInterval
  split_ifs with hc
  · exact ⟨⟨h1, h2, h3, h4, h5, by simp only [h3]; unfold timeSecond; omega⟩, rfl⟩
  · refine ⟨⟨h1, h2, h3, h4, h5, ?_⟩, rfl⟩
    simp only [h2]
    unfold timeSecond at h6 ⊢
    omega

theorem incrementCurrentInterval_max (b : ExponentialBackOff) :
    b.incrementCurrentInterval.MaxElapsedTime = b.MaxElapsedTime := by
  unfold ExponentialBackOff.incrementCurrentInterval
  split_ifs <;> rfl

/-- The two outcomes of `NextBackOff`: `Stop`, recorded with the elapsed time
and the delay drawn, whose sum is over the cap; or the delay drawn. -/
theorem NextBackOff_cases (env : Env) (b : ExponentialBackOff) (w : World) :
    (b.MaxElapsedTime ≠ 0 ∧
      b.MaxElapsedTime < (w.now - b.startTime) +
        getRandomValueFromInterval b.RandomizationFactor (env.random w.draws) b.currentInterval ∧
      NextBackOff env b w = (none, b.incrementCurrentInterval,
        emit (.backoffStop (w.now - b.startTime)
          (getRandomValueFromInterval b.RandomizationFactor (env.random w.draws)
            b.currentInterval)) { w with draws := w.draws + 1 })) ∨
    (¬ (b.MaxElapsedTime ≠ 0 ∧
      b.MaxElapsedTime < (w.now - b.startTime) +
        getRandomValueFromInterval b.RandomizationFactor (env.random w.draws) b.currentInterval) ∧
      NextBackOff env b w = (some (getRandomValueFromInterval b.RandomizationFactor
          (env.random w.draws) b.currentInterval), b.incrementCurrentInterval,
        { w with draws := w.draws + 1 })) := by
  unfold NextBackOff
  simp only [incrementCurrentInterval_max]
  by_cases h : b.MaxElapsedTime ≠ 0 ∧
      b.MaxElapsedTime < (w.now - b.startTime) +
        getRandomValueFromInterval b.RandomizationFactor (env.random w.draws) b.currentInterval
  · left
    exact ⟨h.1, h.2, by rw [if_pos (by exact h)]⟩
  · right
    exact ⟨h, by rw [if_neg (by exact h)]⟩

theorem advances_stop (el nx : Nat) (w : World) :
    Advances w (emit (.backoffStop el nx) { w with draws := w.draws + 1 }) :=
  ⟨rfl, le_refl _, le_refl _, [.backoffStop el nx], rfl, by simp [Event.isRetryEvent]⟩

theorem advances_sleep (nx : Nat) (w : World) :
    Advances w (sleep nx { w with draws := w.draws + 1 }) :=
  ⟨rfl, Nat.le_add_right _ _, le_refl _, [.sleep nx], rfl, by simp [Event.isRetryEvent]⟩

/-- A success of the operation is returned at once. -/
theorem retryLoop_ok {α : Type} (env : Env) (op : World → Option (Except GoError α × World))
    (fuel : Nat) (b : ExponentialBackOff) (w w1 : World) (v : α)
    (hop : op w = some (.ok v, w1)) : retryLoop env op (fuel + 1) b w = some (.ok v, w1) := by
  simp [retryLoop, hop]

theorem retryLoop_stop {α : Type} (env : Env) (op : World → Option (Except GoError α × World))
    (fuel : Nat) (b b2 : ExponentialBackOff) (w w1 w2 : World) (e : GoError)
    (hop : op w = some (.error e, w1)) (he : e ≠ .indexOutOfRange)
    (hn : NextBackOff env b w1 = (none, b2, w2)) :
    retryLoop env op (fuel + 1) b w = some (.error e, w2) := by
  simp only [retryLoop, hop, he, if_false, hn]

theorem retryLoop_continue {α : Type} (env : Env)
    (op : World → Option (Except GoError α × World))
    (fuel : Nat) (b b2 : ExponentialBackOff) (w w1 w2 : World) (e : GoError) (nx : Nat)
    (hop : op w = some (.error e, w1)) (he : e ≠ .indexOutOfRange)
    (hn : NextBackOff env b w1 = (some nx, b2, w2)) :
    retryLoop env op (fuel + 1) b w = retryLoop env op fuel b2 (sleep nx w2) := by
  conv_lhs => unfold retryLoop
  simp only [hop, he, if_false, hn]

/-- A failure that completes past the cap is returned, with no further
attempt: the state returned is the one the attempt left, but for the random
draw of `NextBackOff` and the record of the `Stop`. -/
theorem retryLoop_past_cap {α : Type} (env : Env)
    (op : World → Option (Except GoError α × World)) (fuel : Nat) (b : ExponentialBackOff)
    (w w1 : World) (e : GoError) (hop : op w = some (.error e, w1))
    (h0 : b.MaxElapsedTime ≠ 0) (hpast : b.MaxElapsedTime < w1.now - b.startTime) :
    ∃ w2, retryLoop env op (fuel + 1) b w = some (.error e, w2) ∧ w2.now = w1.now ∧
      w2.requests = w1.requests ∧ w2.files = w1.files ∧
      (w2.log = w1.log ∨ ∃ el nx, w2.log = w1.log ++ [.backoffStop el nx]) := by
  by_cases he : e = .indexOutOfRange
  · exact ⟨w1, by simp [retryLoop, hop, he], rfl, rfl, rfl, Or.inl rfl⟩
  · rcases NextBackOff_cases env b w1 with ⟨_, _, hn⟩ | ⟨hnot, _⟩
    · exact ⟨_, retryLoop_stop env op fuel b _ w w1 _ e hop he hn, rfl, rfl, rfl,
        Or.inr ⟨_, _, rfl⟩⟩
    · exact absurd ⟨h0, by omega⟩ hnot

/-- An error that the loop returns, a panic apart, is returned on `Stop`: the
last event recorded is the `Stop`, with the time elapsed since the start and
the delay drawn, which are over the cap together. -/
theorem retryLoop_error_stop {α : Type} (env : Env)
    (op : World → Option (Except GoError α × World)) :
    ∀ (fuel : Nat) (b : ExponentialBackOff) (w w2 : World) (e : GoError),
      retryLoop env op fuel b w = some (.error e, w2) → e ≠ .indexOutOfRange →
      ∃ nx, w2.log.getLast? = some (.backoffStop (w2.now - b.startTime) nx) ∧
        b.MaxElapsedTime < (w2.now - b.startTime) + nx := by
  intro fuel
  induction fuel with
  | zero => intro b w w2 e h; simp [retryLoop] at h
  | succ fuel ih =>
    intro b w w2 e h hne
    simp only [retryLoop] at h
    rcases hop : op w with _ | ⟨r, w1⟩
    · simp [hop] at h
    · rw [hop] at h
      cases r with
      | ok v => simp at h
      | error e1 =>
        simp only at h
        by_cases he : e1 = .indexOutOfRange
        · simp only [he, if_true, Option.some.injEq, Prod.mk.injEq, Except.error.injEq] at h
          exact absurd h.1.symm hne
        · simp only [he, if_false] at h
          rcases NextBackOff_cases env b w1 with ⟨_, hlt, hn⟩ | ⟨_, hn⟩
          · rw [hn] at h
            simp only [Option.some.injEq, Prod.mk.injEq] at h
            rw [← h.2]
            exact ⟨_, by simp [OciVnic.emit], hlt⟩
          · rw [hn] at h
            simp only at h
            obtain ⟨nx, h1, h2⟩ := ih _ _ _ _ h hne
            have hst : b.incrementCurrentInterval.startTime = b.startTime := by
              unfold ExponentialBackOff.incrementCurrentInterval
              split_ifs <;> rfl
            rw [incrementCurrentInterval_max, hst] at h2
            rw [hst] at h1
            exact ⟨nx, h1, h2⟩

/-- Under the policy of `makeBackoffPolicy`, `fuel + 1` attempts are enough
once `0.9 s * (fuel + 1)` and the time elapsed are over the cap together: the
loop returns, and what it returns is what one of the attempts returned. -/
theorem retryLoop_spec {α : Type} (env : Env) (op : World → Option (Except GoError α × World))
    (cap k0 : Nat) (P : Except GoError α → Prop)
    (hop : ∀ w, k0 ≤ w.requests → ∃ r w1, op w = some (r, w1) ∧ Advances w w1 ∧ P r) :
    ∀ (fuel : Nat) (b : ExponentialBackOff) (w : World), PolicyOf cap b → b.startTime ≤ w.now →
      k0 ≤ w.requests → cap < (w.now - b.startTime) + (fuel + 1) * 900000000 →
      ∃ r w2, retryLoop env op (fuel + 1) b w = some (r, w2) ∧ Advances w w2 ∧ P r := by
  intro fuel
  induction fuel with
  | zero =>
    intro b w hb hs hk hcap
    obtain ⟨r, w1, hop1, hadv, hP⟩ := hop w hk
    cases r with
    | ok v => exact ⟨.ok v, w1, by simp [retryLoop, hop1], hadv, hP⟩
    | error e =>
      by_cases he : e = .indexOutOfRange
      · exact ⟨.error e, w1, by simp [retryLoop, hop1, he], hadv, hP⟩
      · rcases NextBackOff_cases env b w1 with ⟨_, _, hn⟩ | ⟨hnot, _⟩
        · exact ⟨.error e, _, retryLoop_stop env op 0 b _ w w1 _ e hop1 he hn,
            hadv.trans (advances_stop _ _ w1), hP⟩
        · exfalso
          apply hnot
          obtain ⟨h1, _, _, h4, h5, h6⟩ := hb
          have hge := getRandomValueFromInterval_ge (env.random w1.draws) b.currentInterval h6
          have hnow := hadv.2.1
          rw [h1, h4]
          exact ⟨h5, by omega⟩
  | succ fuel ih =>
    intro b w hb hs hk hcap
    obtain ⟨r, w1, hop1, hadv, hP⟩ := hop w hk
    cases r with
    | ok v => exact ⟨.ok v, w1, by simp [retryLoop, hop1], hadv, hP⟩
    | error e =>
      by_cases he : e = .indexOutOfRange
      · exact ⟨.error e, w1, by simp [retryLoop, hop1, he], hadv, hP⟩
      · rcases NextBackOff_cases env b w1 with ⟨_, _, hn⟩ | ⟨_, hn⟩
        · exact ⟨.error e, _, retryLoop_stop env op (fuel + 1) b _ w w1 _ e hop1 he hn,
            hadv.trans (advances_stop _ _ w1), hP⟩
        · have hb2 := hb.increment
          obtain ⟨h1, _, _, _, _, h6⟩ := hb
          have hge := getRandomValueFromInterval_ge (env.random w1.draws) b.currentInterval h6
          rw [← h1] at hge
          have hnow := hadv.2.1
          have hreq := hadv.2.2.1
          obtain ⟨r, w2, hloop, hadv2, hP2⟩ := ih b.incrementCurrentInterval
            (sleep (getRandomValueFromInterval b.RandomizationFactor (env.random w1.draws)
              b.currentInterval) { w1 with draws := w1.draws + 1 })
            hb2.1 (by rw [hb2.2]; simp only [sleep, OciVnic.emit]; omega)
            (by simp only [sleep, OciVnic.emit]; omega)
            (by rw [hb2.2]; simp only [sleep, OciVnic.emit]; omega)
          refine ⟨r, w2, ?_, hadv.trans ((advances_sleep _ w1).trans hadv2), hP2⟩
          rw [← hloop]
          exact retryLoop_continue env op (fuel + 1) b _ w w1 _ e _ hop1 he hn

theorem makeBackoffPolicy_policyOf (cap now t : Nat) (hcap : cap ≠ 0) :
    PolicyOf cap ((makeBackoffPolicy cap now).Reset t) ∧
      ((makeBackoffPolicy cap now).Reset t).startTime = t := by
  refine ⟨⟨rfl, rfl, rfl, rfl, hcap, le_refl _⟩, rfl⟩

/-- The function `RetryWithData` under the policy of `makeBackoffPolicy` with
a cap of 30 s and the attempts of `retryFuel`: it returns, and what it returns
is what one of the attempts returned. -/
theorem RetryWithData_spec {α : Type} (env : Env)
    (op : World → Option (Except GoError α × World)) (k0 : Nat) (P : Except GoError α → Prop)
    (hop : ∀ w, k0 ≤ w.requests → ∃ r w1, op w = some (r, w1) ∧ Advances w w1 ∧ P r)
    (w : World) (hk : k0 ≤ w.requests) :
    ∃ r w2, RetryWithData env retryFuel op (makeBackoffPolicy (timeSecond * 30) w.now) w
        = some (r, w2) ∧ Advances w w2 ∧ P r := by
  have hpol := makeBackoffPolicy_policyOf (timeSecond * 30) w.now w.now (by decide)
  exact retryLoop_spec env op (timeSecond * 30) k0 P hop 33 _ w hpol.1 (by rw [hpol.2]) hk
    (by rw [hpol.2]; unfold timeSecond; omega)

theorem loopRound_some {α : Type} (env : Env)
    (op : World → Option (Except GoError α × World)) (f : Nat) (b : ExponentialBackOff)
    (w : World) (t : Nat × ExponentialBackOff × World) (h : loopRound env op (f, b, w) = some t) :
    ∃ fuel e w1, f = fuel + 1 ∧ op w = some (.error e, w1) ∧ e ≠ .indexOutOfRange ∧
      ¬ (b.MaxElapsedTime ≠ 0 ∧ b.MaxElapsedTime < (w1.now - b.startTime) +
        getRandomValueFromInterval b.RandomizationFactor (env.random w1.draws)
          b.currentInterval) ∧
      NextBackOff env b w1 = (some (getRandomValueFromInterval b.RandomizationFactor
          (env.random w1.draws) b.currentInterval), b.incrementCurrentInterval,
        { w1 with draws := w1.draws + 1 }) ∧
      t = (fuel, b.incrementCurrentInterval,
        sleep (getRandomValueFromInterval b.RandomizationFactor (env.random w1.draws)
          b.currentInterval) { w1 with draws := w1.draws + 1 }) := by
  cases f with
  | zero => simp [loopRound] at h
  | succ fuel =>
    simp only [loopRound] at h
    rcases hop : op w with _ | ⟨r, w1⟩
    · simp [hop] at h
    · rw [hop] at h
      cases r with
      | ok v => simp at h
      | error e =>
        simp only at h
        by_cases he : e = .indexOutOfRange
        · simp [he] at h
        · simp only [he, if_false] at h
          rcases NextBackOff_cases env b w1 with ⟨_, _, hn⟩ | ⟨hnot, hn⟩
          · simp [hn] at h
          · rw [hn] at h
            simp only [Option.some.injEq] at h
            exact ⟨fuel, e, w1, rfl, rfl, he, hnot, hn, h.symm⟩

theorem reaches_retryLoop {α : Type} (env : Env)
    (op : World → Option (Except GoError α × World)) (s t : Nat × ExponentialBackOff × World)
    (h : Reaches env op s t) :
    retryLoop env op s.1 s.2.1 s.2.2 = retryLoop env op t.1 t.2.1 t.2.2 := by
  induction h with
  | start => rfl
  | round t u _ hround ih =>
    obtain ⟨f, b, w⟩ := t
    obtain ⟨fuel, e, w1, hf, hop, he, _, hn, hu⟩ := loopRound_some env op f b w u hround
    rw [ih, hu, hf]
    exact retryLoop_continue env op fuel b _ w w1 _ e _ hop he hn

theorem reaches_inv {α : Type} (env : Env) (op : World → Option (Except GoError α × World))
    (cap start : Nat) (hmono : ∀ w r w1, op w = some (r, w1) → w.now ≤ w1.now)
    (s t : Nat × ExponentialBackOff × World) (hs : LoopInv cap start s)
    (h : Reaches env op s t) : LoopInv cap start t := by
  induction h with
  | start => exact hs
  | round t u _ hround ih =>
    obtain ⟨f, b, w⟩ := t
    obtain ⟨fuel, e, w1, hf, hop, _, hnot, _, hu⟩ := loopRound_some env op f b w u hround
    obtain ⟨hpol, hst, hle, hcap, _⟩ := ih
    simp only at hpol hst hle hcap
    have hpol2 := hpol.increment
    have hnow := hmono w _ w1 hop
    obtain ⟨h1, _, _, h4, h5, h6⟩ := hpol
    have hge := getRandomValueFromInterval_ge (env.random w1.draws) b.currentInterval h6
    rw [← h1] at hge
    rw [h4, hst] at hnot
    have hnot2 : (w1.now - start) + getRandomValueFromInterval b.RandomizationFactor
        (env.random w1.draws) b.currentInterval ≤ cap := by
      by_contra hc
      exact hnot ⟨h5, by omega⟩
    subst hu hf
    refine ⟨hpol2.1, hpol2.2.trans hst, ?_, ?_, ?_⟩
    · simp only [sleep, OciVnic.emit]; omega
    · simp only [sleep, OciVnic.emit]; omega
    · simp only
      by_contra hc
      have : fuel = 0 := by omega
      subst this
      omega

theorem loopInv_start (cap now : Nat) (w0 : World) (hcap : cap ≠ 0)
    (hle : cap < retryFuel * 900000000) :
    LoopInv cap w0.now (retryFuel, (makeBackoffPolicy cap now).Reset w0.now, w0) := by
  have hpol := makeBackoffPolicy_policyOf cap now w0.now hcap
  refine ⟨hpol.1, hpol.2, le_refl _, ?_, ?_⟩
  · simp only
    omega
  · show 1 ≤ retryFuel
    decide

/-- A run of `RetryWithData` under the policy of `makeBackoffPolicy` with a
cap of 30 s, at any state `(f, b, w)` of its loop: a failure of the attempt
at `w` that completes more than 30 s after the start is what the run returns,
the state returned being the one this attempt left but for the draw and the
record of the `Stop`; and a success of the attempt at `w` is what the run
returns. -/
theorem RetryWithData_past_cap {α : Type} (env : Env)
    (op : World → Option (Except GoError α × World))
    (hmono : ∀ w r w1, op w = some (r, w1) → w.now ≤ w1.now)
    (w0 : World) (f : Nat) (b : ExponentialBackOff) (w w1 : World)
    (hreach : Reaches env op
      (retryFuel, (makeBackoffPolicy (timeSecond * 30) w0.now).Reset w0.now, w0) (f, b, w)) :
    (∀ e, op w = some (.error e, w1) → timeSecond * 30 < w1.now - w0.now →
      ∃ w2, RetryWithData env retryFuel op (makeBackoffPolicy (timeSecond * 30) w0.now) w0
          = some (.error e, w2) ∧ w2.now = w1.now ∧ w2.requests = w1.requests ∧
        w2.files = w1.files ∧
        (w2.log = w1.log ∨ ∃ el nx, w2.log = w1.log ++ [.backoffStop el nx])) ∧
    (∀ v, op w = some (.ok v, w1) →
      RetryWithData env retryFuel op (makeBackoffPolicy (timeSecond * 30) w0.now) w0
        = some (.ok v, w1)) := by
  have hinv := reaches_inv env op (timeSecond * 30) w0.now hmono _ _
    (loopInv_start (timeSecond * 30) w0.now w0 (by decide) (by decide)) hreach
  have heq := reaches_retryLoop env op _ _ hreach
  simp only at heq
  obtain ⟨hpol, hst, _, _, hf⟩ := hinv
  simp only at hpol hst hf
  obtain ⟨fuel, rfl⟩ : ∃ fuel, f = fuel + 1 := ⟨f - 1, by omega⟩
  unfold RetryWithData
  rw [heq]
  constructor
  · intro e hop hpast
    exact retryLoop_past_cap env op fuel b w w1 e hop (by rw [hpol.2.2.2.1]; decide)
      (by rw [hpol.2.2.2.1, hst]; exact hpast)
  · intro v hop
    exact retryLoop_ok env op fuel b w w1 v hop

/-! ## Lemmas on the functions of `main.go` -/

theorem doRequestVnicsMetadata_fst (env : Env) (w : World) :
    (doRequestVnicsMetadata env w).1 =
      match env.httpResult w.requests with
      | .error t => .error (.external t)
      | .ok rs => convertResponses env.unicodeLower rs := by
  simp only [doRequestVnicsMetadata, OciVnic.emit]
  cases env.httpResult w.requests <;> rfl

theorem requestVnicsMetadataWithRetry_spec (env : Env) (k0 : Nat)
    (P : Except GoError (List VnicMetadata) → Prop)
    (hP : ∀ w, k0 ≤ w.requests → P (doRequestVnicsMetadata env w).1)
    (w : World) (hk : k0 ≤ w.requests) :
    ∃ r w2, requestVnicsMetadataWithRetry env w = some (r, w2) ∧ Advances w w2 ∧ P r :=
  RetryWithData_spec env (fun w => some (doRequestVnicsMetadata env w)) k0 P
    (fun w1 h1 => ⟨_, _, rfl, doRequestVnicsMetadata_advances env w1, hP w1 h1⟩) w hk

theorem doMatchVnicMetadata_spec (env : Env) (n m : Str) (k0 : Nat)
    (P : Except GoError (List VnicMetadata) → Prop)
    (hP : ∀ w, k0 ≤ w.requests → P (doRequestVnicsMetadata env w).1)
    (w : World) (hk : k0 ≤ w.requests) :
    ∃ ra w2, P ra ∧ Advances w w2 ∧
      doMatchVnicMetadata env n m w =
        some ((match ra with
          | .error e => .error e
          | .ok ms => scanVnicsMetadata n m ms), w2) := by
  obtain ⟨ra, w2, h, hadv, hPa⟩ :=
    requestVnicsMetadataWithRetry_spec env k0 P hP (emit (.logMatching m) w) hk
  refine ⟨ra, w2, hPa, (advances_emit _ w (by simp [Event.isRetryEvent])).trans hadv, ?_⟩
  unfold doMatchVnicMetadata
  simp only [h]
  cases ra <;> rfl

theorem doMatchVnicMetadata_total (env : Env) (n m : Str) (w : World) :
    ∃ r w1, doMatchVnicMetadata env n m w = some (r, w1) ∧ Advances w w1 := by
  obtain ⟨ra, w2, _, hadv, h⟩ :=
    doMatchVnicMetadata_spec env n m 0 (fun _ => True) (fun _ _ => trivial) w (Nat.zero_le _)
  exact ⟨_, w2, h, hadv⟩

theorem doMatchVnicMetadata_mono (env : Env) (n m : Str) :
    ∀ w r w1, doMatchVnicMetadata env n m w = some (r, w1) → w.now ≤ w1.now := by
  intro w r w1 h
  obtain ⟨r2, w2, h2, hadv⟩ := doMatchVnicMetadata_total env n m w
  rw [h2] at h
  cases h
  exact hadv.2.1

theorem queryVnicMetadataWithRetry_spec (env : Env) (n m : Str) (k0 : Nat)
    (Q : Except GoError VnicMetadata → Prop)
    (hQ : ∀ w, k0 ≤ w.requests →
      ∃ r w1, doMatchVnicMetadata env n m w = some (r, w1) ∧ Advances w w1 ∧ Q r)
    (w : World) (hk : k0 ≤ w.requests) :
    ∃ r w2, queryVnicMetadataWithRetry env n m w = some (r, w2) ∧ Advances w w2 ∧ Q r :=
  RetryWithData_spec env (fun w => doMatchVnicMetadata env n m w) k0 Q hQ w hk

theorem scanVnicsMetadata_name (n m : Str) (ms : List VnicMetadata) :
    ∀ md, scanVnicsMetadata n m ms = .ok md → md.Name = n := by
  induction ms with
  | nil => intro md hmd; cases hmd
  | cons x xs ih =>
    intro md hmd
    simp only [scanVnicsMetadata] at hmd
    split_ifs at hmd
    · cases hmd; rfl
    · exact ih md hmd

theorem queryVnicMetadataWithRetry_name (env : Env) (n m : Str) (w : World) :
    ∃ r w2, queryVnicMetadataWithRetry env n m w = some (r, w2) ∧ Advances w w2 ∧
      ∀ md, r = .ok md → md.Name = n := by
  apply queryVnicMetadataWithRetry_spec env n m 0 (fun r => ∀ md, r = .ok md → md.Name = n) _ w
    (Nat.zero_le _)
  intro w1 _
  obtain ⟨ra, w2, _, hadv, h⟩ :=
    doMatchVnicMetadata_spec env n m 0 (fun _ => True) (fun _ _ => trivial) w1 (Nat.zero_le _)
  refine ⟨_, w2, h, hadv, ?_⟩
  cases ra with
  | error e => intro md hmd; cases hmd
  | ok ms => exact scanVnicsMetadata_name n m ms

theorem queryVnicMacAddress_world (env : Env) (n : Str) (w : World) :
    ∃ evs, (queryVnicMacAddress env n w).2 =
        { w with log := w.log ++ .logIpLinkShow n :: .execIpLinkShow n :: evs } ∧
      (evs = [] ∨ ∃ b, evs = [.logIpResult b]) := by
  simp only [queryVnicMacAddress, OciVnic.emit]
  cases env.ipOutput n with
  | error t => exact ⟨[], by simp, Or.inl rfl⟩
  | ok b =>
    by_cases hb : b.length = 0
    · exact ⟨[], by simp [hb], Or.inl rfl⟩
    · exact ⟨[.logIpResult b], by simp [hb], Or.inr ⟨b, rfl⟩⟩

theorem queryVnicMacAddress_result (env : Env) (n : Str) (w : World) :
    (∃ t, (queryVnicMacAddress env n w).1 = .error (.external t)) ∨
    (queryVnicMacAddress env n w).1 = .error .emptyResult ∨
    (∃ b, env.ipOutput n = .ok b ∧ b ≠ [] ∧
      (queryVnicMacAddress env n w).1 = parseIpOutput env.unicodeLower b) := by
  simp only [queryVnicMacAddress]
  cases h : env.ipOutput n with
  | error t => exact Or.inl ⟨t, rfl⟩
  | ok b =>
    by_cases hb : b.length = 0
    · exact Or.inr (Or.inl (by simp [hb]))
    · exact Or.inr (Or.inr ⟨b, rfl, fun e => hb (by simp [e]), by simp [hb]⟩)

theorem generateVnicProfile_log (env : Env) (md : VnicMetadata) (w : World) :
    ∃ evs, (generateVnicProfile env md w).2.log = w.log ++ evs ∧
      ∀ e ∈ evs, e.isProfileEvent = true := by
  simp only [generateVnicProfile, OciVnic.emit]
  split_ifs
  · exact ⟨[.stat (profilePathOf md.Name), .logAlreadyExists (profilePathOf md.Name)],
      by simp, by simp [Event.isProfileEvent]⟩
  · cases env.parseFiles with
    | some t =>
      exact ⟨[.stat (profilePathOf md.Name), .logGenerating (profilePathOf md.Name),
        .parseFiles profileTemplatePath], by simp, by simp [Event.isProfileEvent]⟩
    | none =>
      simp only
      cases env.openError _ with
      | some t =>
        exact ⟨[.stat (profilePathOf md.Name), .logGenerating (profilePathOf md.Name),
          .parseFiles profileTemplatePath, .openFile (profilePathOf md.Name)],
          by simp, by simp [Event.isProfileEvent]⟩
      | none =>
        exact ⟨[.stat (profilePathOf md.Name), .logGenerating (profilePathOf md.Name),
          .parseFiles profileTemplatePath, .openFile (profilePathOf md.Name), .execute md],
          by simp [writeFile], by simp [Event.isProfileEvent]⟩

theorem main_two_args (env : Env) (prog n : Str) (w : World) :
    main env [prog, n] w =
      match queryVnicMacAddress env n w with
      | (.error err, w) => some (logFatal err w)
      | (.ok mac, w) =>
        match queryVnicMetadataWithRetry env n mac w with
        | none => none
        | some (.error err, w) => some (logFatal err w)
        | some (.ok metadata, w) =>
          match generateVnicProfile env metadata (emit (.logMatched metadata) w) with
          | (some err, w) => some (logFatal err w)
          | (none, w) => some (0, w) := by
  simp [main, indexAt]

theorem unicodeToLower_id_idem (c : Char) :
    unicodeToLower (fun c => c) (unicodeToLower (fun c => c) c) = unicodeToLower (fun c => c) c := by
  unfold unicodeToLower
  by_cases h1 : c.toNat ≤ 0x7F
  · by_cases h2 : 'A'.toNat ≤ c.toNat ∧ c.toNat ≤ 'Z'.toNat
    · have hc : c = Char.ofNat c.toNat := (Char.ofNat_toNat c).symm
      have hA : 'A'.toNat = 65 := rfl
      have hZ : 'Z'.toNat = 90 := rfl
      rw [hA, hZ] at h2
      generalize c.toNat = k at hc h2
      subst hc
      obtain ⟨h3, h4⟩ := h2
      interval_cases k <;> decide
    · rw [if_pos h1, if_neg h2, if_pos h1, if_neg h2]
  · rw [if_neg h1, if_neg h1]

theorem queryVnicMacAddress_lower (env : Env) (n m : Str) (w : World)
    (h : (queryVnicMacAddress env n w).1 = .ok m) : ∃ p, m = ToLower env.unicodeLower p := by
  rcases queryVnicMacAddress_result env n w with ⟨t, ht⟩ | ht | ⟨b, _, _, hb⟩
  · rw [ht] at h; cases h
  · rw [ht] at h; cases h
  · rw [hb] at h
    exact parseIpOutput_lower _ b m h

/-! ## The claims on matching and conversion -/

/-- C1: let `m` be an address returned by `queryVnicMacAddress`, and let the
metadata response hold an entry `e` whose `macAddr` equals `m`
case-insensitively, the entries `pre` before it not doing so and the entries
`post` after it being any (duplicates of `e` included).  Then `e` is converted
to a record, the conversion of the response followed by the scan returns that
record with `Name` set to the name given and nothing else changed, and
`doMatchVnicMetadata` returns it when the response is the one the endpoint
gives next.  (The case table of `unicode.ToLower` is taken to map a lowercase
form to itself.) -/
theorem C1_first_match_wins (env : Env) (n m : Str) (w0 w : World)
    (pre post : List VnicMetadataResponse) (e : VnicMetadataResponse)
    (hT : ∀ c, unicodeToLower env.unicodeLower (unicodeToLower env.unicodeLower c)
      = unicodeToLower env.unicodeLower c)
    (hm : (queryVnicMacAddress env n w0).1 = .ok m)
    (hpre : ∀ x ∈ pre, ¬ equalsIgnoreCase env.unicodeLower x.MacAddr m)
    (he : equalsIgnoreCase env.unicodeLower e.MacAddr m) :
    ∃ record, convertEntry env.unicodeLower pre.length e = .ok record ∧
      (∃ ms, convertResponses env.unicodeLower (pre ++ e :: post) = .ok ms ∧
        scanVnicsMetadata n m ms = .ok { record with Name := n }) ∧
      (env.httpResult w.requests = .ok (pre ++ e :: post) →
        ∃ w2, doMatchVnicMetadata env n m w = some (.ok { record with Name := n }, w2)) := by
  obtain ⟨p, hp⟩ := queryVnicMacAddress_lower env n m w0 hm
  have hlow : ToLower env.unicodeLower m = m := by rw [hp, ToLower_idem _ hT]
  unfold equalsIgnoreCase at hpre he
  rw [hlow] at he
  have hscan : scanVnicsMetadata n m (convertedFrom env.unicodeLower 0 (pre ++ e :: post))
      = .ok { convertedEntry env.unicodeLower pre.length e with Name := n } := by
    rw [convertedFrom_append, scan_skip]
    · simp [convertedFrom, scanVnicsMetadata, convertedEntry, he]
    · intro x hx
      obtain ⟨r, hr, hxr⟩ := convertedFrom_macAddr _ _ _ x hx
      rw [hxr]
      have := hpre r hr
      rw [hlow] at this
      exact this
  refine ⟨convertedEntry env.unicodeLower pre.length e, convertEntry_eq _ _ _,
    ⟨_, convertResponses_eq _ _, hscan⟩, ?_⟩
  intro hresp
  have hfst : (doRequestVnicsMetadata env (emit (.logMatching m) w)).1
      = .ok (convertedFrom env.unicodeLower 0 (pre ++ e :: post)) := by
    rw [doRequestVnicsMetadata_fst]
    have : (emit (.logMatching m) w).requests = w.requests := rfl
    rw [this, hresp]
    exact convertResponses_eq _ _
  have hop : (fun w => some (doRequestVnicsMetadata env w)) (emit (.logMatching m) w)
      = some (.ok (convertedFrom env.unicodeLower 0 (pre ++ e :: post)),
          (doRequestVnicsMetadata env (emit (.logMatching m) w)).2) := by
    simp only [← hfst]
  refine ⟨(doRequestVnicsMetadata env (emit (.logMatching m) w)).2, ?_⟩
  unfold doMatchVnicMetadata requestVnicsMetadataWithRetry RetryWithData
  simp only
  rw [show retryFuel = 33 + 1 from rfl, retryLoop_ok env _ 33 _ _ _ _ hop]
  simp only [hscan]

/-- C1 on a response of three entries, the second and the third both holding
the address of `ens5` in upper case: the record of the second is returned. -/
theorem C1_first_match_wins_witness :
    ∃ record, convertEntry (fun c => c) 1 sampleEntry = .ok record ∧
      (∃ ms, convertResponses (fun c => c) ([otherEntry] ++ sampleEntry :: [sampleEntry])
          = .ok ms ∧
        scanVnicsMetadata "ens5".toList "02:00:17:0a:bc:4d".toList ms
          = .ok { record with Name := "ens5".toList }) ∧
      ((sampleEnv sampleIpOutput
            (fun _ => .ok [otherEntry, sampleEntry, sampleEntry])).httpResult
          emptyWorld.requests = .ok ([otherEntry] ++ sampleEntry :: [sampleEntry]) →
        ∃ w2, doMatchVnicMetadata
            (sampleEnv sampleIpOutput (fun _ => .ok [otherEntry, sampleEntry, sampleEntry]))
            "ens5".toList "02:00:17:0a:bc:4d".toList emptyWorld
          = some (.ok { record with Name := "ens5".toList }, w2)) :=
  C1_first_match_wins
    (sampleEnv sampleIpOutput (fun _ => .ok [otherEntry, sampleEntry, sampleEntry]))
    "ens5".toList "02:00:17:0a:bc:4d".toList emptyWorld emptyWorld [otherEntry] [sampleEntry]
    sampleEntry unicodeToLower_id_idem (by decide) (by decide) (by decide)

/-- C8: when the response of the endpoint decodes to the entries `rs`,
`doRequestVnicsMetadata` returns as many records, the `k`-th being the
conversion of the `k`-th entry: `VnicIndex` is `k`; `MacAddr` is the lowercase
of its `macAddr`, code point by code point (an ASCII capital letter becomes
the letter 32 code points above, any other ASCII code point stays, a code
point beyond ASCII goes through the case table); `PrivateIp` and
`VirtualRouterIp` are copied; no entry gives no record, and not an error. -/
theorem C8_records_in_response_order (env : Env) (w : World) (rs : List VnicMetadataResponse)
    (h : env.httpResult w.requests = .ok rs) :
    ∃ ms, (doRequestVnicsMetadata env w).1 = .ok ms ∧ ms.length = rs.length ∧
      (∀ k r, rs.get? k = some r →
        ∃ m, ms.get? k = some m ∧ convertEntry env.unicodeLower k r = .ok m ∧
          m.VnicIndex = k ∧ m.MacAddr = ToLower env.unicodeLower r.MacAddr ∧
          List.Forall₂ (isLowercaseOf env.unicodeLower) r.MacAddr m.MacAddr ∧
          m.PrivateIp = r.PrivateIp ∧ m.VirtualRouterIp = r.VirtualRouterIp) ∧
      (rs = [] → ms = []) := by
  refine ⟨convertedFrom env.unicodeLower 0 rs, ?_, convertedFrom_length _ _ _, ?_, ?_⟩
  · rw [doRequestVnicsMetadata_fst, h]
    exact convertResponses_eq _ _
  · intro k r hk
    refine ⟨convertedEntry env.unicodeLower k r, ?_, convertEntry_eq _ _ _, rfl, rfl, ?_,
      rfl, rfl⟩
    · rw [convertedFrom_get?, hk]
      simp
    · show List.Forall₂ (isLowercaseOf env.unicodeLower) r.MacAddr
        (r.MacAddr.map (unicodeToLower env.unicodeLower))
      generalize r.MacAddr = s
      induction s with
      | nil => exact List.Forall₂.nil
      | cons c cs ih =>
        refine List.Forall₂.cons ?_ ih
        unfold isLowercaseOf unicodeToLower
        have hA : 'A'.toNat = 65 := rfl
        have hZ : 'Z'.toNat = 90 := rfl
        rw [hA, hZ]
        by_cases h1 : c.toNat ≤ 127
        · by_cases h2 : 65 ≤ c.toNat ∧ c.toNat ≤ 90
          · rw [if_pos h1, if_pos h2, if_pos h1, if_pos h2]
            obtain ⟨h3, h4⟩ := h2
            generalize c.toNat = j at h3 h4
            interval_cases j <;> decide
          · rw [if_pos h1, if_neg h2, if_pos h1, if_neg h2]
        · rw [if_neg h1, if_neg h1]
  · intro hrs
    subst hrs
    rfl

/-- C8 on a response of two entries, the second with the address
`02:00:17:0A:BC:4D`: two records are returned, the second with index 1, the
address `02:00:17:0a:bc:4d` and the two copied fields; and the empty response
gives the empty sequence. -/
theorem C8_records_in_response_order_witness :
    (∃ ms, (doRequestVnicsMetadata
          (sampleEnv sampleIpOutput (fun _ => .ok [otherEntry, sampleEntry])) emptyWorld).1
        = .ok ms ∧ ms.length = 2 ∧
      ∃ m, ms.get? 1 = some m ∧ m.VnicIndex = 1 ∧
        m.MacAddr = "02:00:17:0a:bc:4d".toList ∧ m.PrivateIp = "10.0.1.7".toList ∧
        m.VirtualRouterIp = "10.0.1.1".toList) ∧
    (doRequestVnicsMetadata (sampleEnv sampleIpOutput (fun _ => .ok [])) emptyWorld).1
      = .ok [] := by
  constructor
  · obtain ⟨ms, h1, h2, h3, _⟩ := C8_records_in_response_order
      (sampleEnv sampleIpOutput (fun _ => .ok [otherEntry, sampleEntry])) emptyWorld
      [otherEntry, sampleEntry] rfl
    obtain ⟨m, hm, _, hidx, hmac, _, hip, hrt⟩ := h3 1 sampleEntry rfl
    exact ⟨ms, h1, h2, m, hm, hidx, hmac.trans (by decide), hip.trans (by decide),
      hrt.trans (by decide)⟩
  · obtain ⟨ms, h1, _, _, h4⟩ := C8_records_in_response_order
      (sampleEnv sampleIpOutput (fun _ => .ok [])) emptyWorld [] rfl
    rw [h1, h4 rfl]

/-- C10: the last-element accesses are in range.  For every output `b` the
slice `lines` has a last element, for every CIDR string the slices `parts`
and `ipv6Parts` have one; so neither the parse nor the conversion of an entry
ends in the index panic, `queryVnicMacAddress` returns an address or an error
value for every environment, and on a non-empty output made of white space
only it returns the error `failed to parse mac address`. -/
theorem C10_last_element_in_range :
    (∀ b : Str, ∃ l, indexAt (Split (TrimSpace b) '\n')
        (((Split (TrimSpace b) '\n').length : Int) - 1) = some l) ∧
    (∀ s : Str, ∃ l, indexAt (Split s '/') (((Split s '/').length : Int) - 1) = some l) ∧
    (∀ tbl idx r, ∃ m, convertEntry tbl idx r = .ok m) ∧
    (∀ env n w, (∃ m, (queryVnicMacAddress env n w).1 = .ok m) ∨
      (∃ e, (queryVnicMacAddress env n w).1 = .error e ∧ e ≠ .indexOutOfRange)) ∧
    (∀ env n w b, env.ipOutput n = .ok b → b ≠ [] → (∀ c ∈ b, isSpace c = true) →
      (queryVnicMacAddress env n w).1 = .error .parseMacAddress) := by
  refine ⟨fun b => ⟨_, lastPiece_eq _ _⟩, fun s => ⟨_, lastPiece_eq _ _⟩,
    fun tbl idx r => ⟨_, convertEntry_eq tbl idx r⟩, ?_, ?_⟩
  · intro env n w
    rcases queryVnicMacAddress_result env n w with ⟨t, ht⟩ | ht | ⟨b, _, _, hb⟩
    · exact Or.inr ⟨_, ht, by simp⟩
    · exact Or.inr ⟨_, ht, by simp⟩
    · rw [hb]
      cases hp : parseIpOutput env.unicodeLower b with
      | ok m => exact Or.inl ⟨m, rfl⟩
      | error e =>
        refine Or.inr ⟨e, rfl, ?_⟩
        intro he
        rw [he] at hp
        exact parseIpOutput_no_panic _ _ hp
  · intro env n w b hout hb hsp
    rw [queryVnicMacAddress_fst env n b w hout hb, parseIpOutput_eq _ b,
      TrimSpace_all_space b hsp]
    have hs : Split (TrimSpace (lastPiece [] '\n')) ' ' = [[]] := by decide
    rw [hs]

/-- C10 on the output made of a space, a newline, a tab and a newline. -/
theorem C10_last_element_in_range_witness :
    (queryVnicMacAddress (sampleEnv " \n\t\n".toList (fun _ => .ok [])) "ens5".toList
      emptyWorld).1 = .error .parseMacAddress :=
  C10_last_element_in_range.2.2.2.2 (sampleEnv " \n\t\n".toList (fun _ => .ok []))
    "ens5".toList emptyWorld " \n\t\n".toList rfl (by decide) (by decide)

/-! ## The claims on the pipeline -/

/-- C5: when a file is at the profile path of the record, `generateVnicProfile`
returns `nil` and leaves the state as it was but for two records: the call of
`os.Stat` and the log line `already exists`.  The files are the same, the
template is not loaded, and no file is opened or written. -/
theorem C5_existing_profile_untouched (env : Env) (metadata : VnicMetadata) (w : World)
    (content : Str) (hex : w.file (profilePathOf metadata.Name) = some content) :
    generateVnicProfile env metadata w =
      (none, { w with log := w.log ++ [.stat (profilePathOf metadata.Name),
        .logAlreadyExists (profilePathOf metadata.Name)] }) ∧
    (generateVnicProfile env metadata w).2.files = w.files ∧
    (generateVnicProfile env metadata w).2.file (profilePathOf metadata.Name) = some content ∧
    (∀ e ∈ (generateVnicProfile env metadata w).2.log, e ∉ w.log →
      e ≠ .parseFiles profileTemplatePath ∧ e ≠ .openFile (profilePathOf metadata.Name) ∧
      e ≠ .execute metadata) := by
  have hex2 : (emit (.stat (profilePathOf metadata.Name)) w).file (profilePathOf metadata.Name)
      = some content := hex
  have hgen : generateVnicProfile env metadata w =
      (none, { w with log := w.log ++ [.stat (profilePathOf metadata.Name),
        .logAlreadyExists (profilePathOf metadata.Name)] }) := by
    simp only [generateVnicProfile, hex2, Option.isSome_some, if_true]
    simp [OciVnic.emit]
  refine ⟨hgen, by rw [hgen], by rw [hgen]; exact hex, ?_⟩
  rw [hgen]
  intro e he hnot
  simp only [List.mem_append, List.mem_cons, List.mem_singleton, List.not_mem_nil,
    or_false] at he
  rcases he with he | rfl | rfl
  · exact absurd he hnot
  · simp
  · simp

/-- C5 on a state in which the profile of `ens5` is there. -/
theorem C5_existing_profile_untouched_witness :
    (generateVnicProfile (sampleEnv sampleIpOutput (fun _ => .ok [sampleEntry])) sampleMetadata
        configuredWorld).1 = none ∧
      (generateVnicProfile (sampleEnv sampleIpOutput (fun _ => .ok [sampleEntry])) sampleMetadata
        configuredWorld).2.files = configuredWorld.files :=
  ⟨congrArg Prod.fst (C5_existing_profile_untouched
      (sampleEnv sampleIpOutput (fun _ => .ok [sampleEntry])) sampleMetadata configuredWorld
      "DEVICE=ens5".toList (by decide)).1,
    (C5_existing_profile_untouched
      (sampleEnv sampleIpOutput (fun _ => .ok [sampleEntry])) sampleMetadata configuredWorld
      "DEVICE=ens5".toList (by decide)).2.1⟩

theorem logFatal_spec (err : GoError) (w : World) :
    ∃ ev, (logFatal err w).2 = { w with log := w.log ++ [ev] } ∧ ev ≠ .fatalUsage ∧
      ev.isProfileEvent = false ∧ (err ≠ .indexOutOfRange → logFatal err w = (1, emit (.fatal err) w)) := by
  unfold logFatal
  split_ifs with h
  · exact ⟨.crash, rfl, by simp, rfl, fun h2 => absurd h h2⟩
  · exact ⟨.fatal err, rfl, by simp, rfl, fun _ => rfl⟩

theorem retryEvent_ne_usage (evs : List Event) (h : ∀ e ∈ evs, e.isRetryEvent = true) :
    Event.fatalUsage ∉ evs := by
  intro hmem
  have := h _ hmem
  simp [Event.isRetryEvent] at this

theorem profileEvent_ne_usage (evs : List Event) (h : ∀ e ∈ evs, e.isProfileEvent = true) :
    Event.fatalUsage ∉ evs := by
  intro hmem
  have := h _ hmem
  simp [Event.isProfileEvent] at this

theorem retryEvent_not_profile (e : Event) (h : e.isRetryEvent = true) :
    e.isProfileEvent = false := by
  cases e <;> simp_all [Event.isRetryEvent, Event.isProfileEvent]

/-- C9: with an argument vector that does not hold exactly two elements (the
program name and one positional argument), `main` ends with status 1 after
recording the usage error and nothing else: no command is run, no request is
made and no profile is emitted.  With exactly one positional argument `n`,
`main` ends, the first things it records are the log line and the run of
`ip link show dev n`, the usage error is not among what it records, and what
it does is the pipeline with `n` given to `queryVnicMacAddress` and to
`queryVnicMetadataWithRetry`. -/
theorem C9_usage_error (env : Env) (osArgs : List Str) (w : World) :
    (osArgs.length ≠ 2 → main env osArgs w = some (1, emit .fatalUsage w)) ∧
    (∀ prog n, osArgs = [prog, n] →
      (∃ code wf evs, main env osArgs w = some (code, wf) ∧
        wf.log = w.log ++ .logIpLinkShow n :: .execIpLinkShow n :: evs ∧
        Event.fatalUsage ∉ evs) ∧
      main env osArgs w =
        match queryVnicMacAddress env n w with
        | (.error err, w) => some (logFatal err w)
        | (.ok mac, w) =>
          match queryVnicMetadataWithRetry env n mac w with
          | none => none
          | some (.error err, w) => some (logFatal err w)
          | some (.ok metadata, w) =>
            match generateVnicProfile env metadata (emit (.logMatched metadata) w) with
            | (some err, w) => some (logFatal err w)
            | (none, w) => some (0, w)) := by
  constructor
  · intro h
    simp [main, h]
  · intro prog n hargs
    subst hargs
    refine ⟨?_, main_two_args env prog n w⟩
    rw [main_two_args]
    obtain ⟨evs0, hw1, hevs0⟩ := queryVnicMacAddress_world env n w
    have h0 : Event.fatalUsage ∉ evs0 := by
      rcases hevs0 with rfl | ⟨b, rfl⟩ <;> simp
    rcases hq : queryVnicMacAddress env n w with ⟨r, w1⟩
    rw [hq] at hw1
    simp only at hw1
    cases r with
    | error err =>
      obtain ⟨ev, hl, hne, _, _⟩ := logFatal_spec err w1
      refine ⟨(logFatal err w1).1, (logFatal err w1).2, evs0 ++ [ev], rfl, ?_, ?_⟩
      · rw [hl, hw1]; simp
      · simp [h0, hne.symm]
    | ok mac =>
      simp only
      obtain ⟨r2, w2, hq2, hadv, _⟩ := queryVnicMetadataWithRetry_name env n mac w1
      obtain ⟨_, _, _, evs2, hl2, he2⟩ := hadv
      have h2 := retryEvent_ne_usage evs2 he2
      rw [hq2]
      cases r2 with
      | error err =>
        obtain ⟨ev, hl, hne, _, _⟩ := logFatal_spec err w2
        refine ⟨(logFatal err w2).1, (logFatal err w2).2, evs0 ++ evs2 ++ [ev], rfl, ?_, ?_⟩
        · rw [hl]; simp only; rw [hl2, hw1]; simp
        · simp [h0, h2, hne.symm]
      | ok md =>
        simp only
        obtain ⟨evs3, hl3, he3⟩ := generateVnicProfile_log env md (emit (.logMatched md) w2)
        have h3 := profileEvent_ne_usage evs3 he3
        rcases hg : generateVnicProfile env md (emit (.logMatched md) w2) with ⟨oe, w3⟩
        rw [hg] at hl3
        simp only [OciVnic.emit] at hl3
        cases oe with
        | some err =>
          obtain ⟨ev, hl, hne, _, _⟩ := logFatal_spec err w3
          refine ⟨(logFatal err w3).1, (logFatal err w3).2,
            evs0 ++ evs2 ++ [.logMatched md] ++ evs3 ++ [ev], rfl, ?_, ?_⟩
          · rw [hl]; simp only; rw [hl3, hl2, hw1]; simp
          · simp [h0, h2, h3, hne.symm]
        | none =>
          refine ⟨0, w3, evs0 ++ evs2 ++ [.logMatched md] ++ evs3, rfl, ?_, ?_⟩
          · rw [hl3, hl2, hw1]; simp
          · simp [h0, h2, h3]

/-- C9 on an argument vector with two positional arguments and on one with
one (the metadata then holding the interface). -/
theorem C9_usage_error_witness :
    main (sampleEnv sampleIpOutput (fun _ => .ok [sampleEntry]))
        ["oci-vnic".toList, "ens5".toList, "ens6".toList] emptyWorld
      = some (1, emit .fatalUsage emptyWorld) ∧
    ∃ code wf evs, main (sampleEnv sampleIpOutput (fun _ => .ok [sampleEntry]))
        ["oci-vnic".toList, "ens5".toList] emptyWorld = some (code, wf) ∧
      wf.log = emptyWorld.log ++
        .logIpLinkShow "ens5".toList :: .execIpLinkShow "ens5".toList :: evs ∧
      Event.fatalUsage ∉ evs :=
  ⟨(C9_usage_error (sampleEnv sampleIpOutput (fun _ => .ok [sampleEntry]))
      ["oci-vnic".toList, "ens5".toList, "ens6".toList] emptyWorld).1 (by decide),
    ((C9_usage_error (sampleEnv sampleIpOutput (fun _ => .ok [sampleEntry]))
      ["oci-vnic".toList, "ens5".toList] emptyWorld).2 "oci-vnic".toList "ens5".toList rfl).1⟩

/-- C3, as stated, fails on two counts.  With an endpoint whose first 12
requests fail and whose later requests are answered with the entry of another
interface, no response holds the address of `ens5`, yet the first call of
`doMatchVnicMetadata` returns the error of the fetch (after the 12 failed
requests of Regime A) and not the not-matched error.  With an endpoint that
answers every request with the entry of another interface,
`queryVnicMetadataWithRetry` returns the not-matched error 28.947376679 s
after its start, before its cap of 30 s has elapsed. -/
theorem C3_counterexample :
    (NoResponseMatches flakyEnv 0 "02:00:17:0a:bc:4d".toList ∧
      (queryVnicMacAddress flakyEnv "ens5".toList emptyWorld).1
        = .ok "02:00:17:0a:bc:4d".toList ∧
      (doMatchVnicMetadata flakyEnv "ens5".toList "02:00:17:0a:bc:4d".toList emptyWorld).map
        (fun p => (p.1, p.2.requests)) = some (.error (.external 7), 12)) ∧
    (NoResponseMatches unmatchedEnv 0 "02:00:17:0a:bc:4d".toList ∧
      (queryVnicMacAddress unmatchedEnv "ens5".toList emptyWorld).1
        = .ok "02:00:17:0a:bc:4d".toList ∧
      (queryVnicMetadataWithRetry unmatchedEnv "ens5".toList "02:00:17:0a:bc:4d".toList
          emptyWorld).map (fun p => (p.1, p.2.now))
        = some (.error .notMatched, 28947376679) ∧
      28947376679 < timeSecond * vnicAttachmentReadyTimeoutSeconds) := by
  refine ⟨⟨?_, by decide, by decide⟩, ?_, by decide, by decide, by decide⟩
  · intro k rs _ h r hr
    have h2 : (if k < 12 then Except.error 7 else Except.ok [otherEntry] :
        Except Nat (List VnicMetadataResponse)) = .ok rs := h
    split_ifs at h2
    cases h2
    simp only [List.mem_singleton] at hr
    subst hr
    decide
  · intro k rs _ h r hr
    have h2 : (Except.ok [otherEntry] : Except Nat (List VnicMetadataResponse)) = .ok rs := h
    cases h2
    simp only [List.mem_singleton] at hr
    subst hr
    decide

/-- C3, amended: let `m` be the address that `queryVnicMacAddress` returns for
`n`, and let no response of the endpoint, from the requests of this run on,
hold an entry whose lowercased `macAddr` is `m`.  Then every call of
`doMatchVnicMetadata` returns an error and never a record: the not-matched
error, or, only in a run in which some request is not answered, the error of
the fetch that Regime A gave up on.  `queryVnicMetadataWithRetry` returns an
error when its policy says `Stop`, that is when the time elapsed since its
start and the next delay drawn are over its cap of 30 s together.  And `main`
ends with status 1 on `log.Fatal` of that error, the files being as they were
and nothing of the profile emitter being recorded. -/
theorem C3_no_match_is_fatal (env : Env) (prog n m : Str) (w : World)
    (hmac : (queryVnicMacAddress env n w).1 = .ok m)
    (hno : ∀ k rs, w.requests ≤ k → env.httpResult k = .ok rs →
      ∀ r ∈ rs, ToLower env.unicodeLower r.MacAddr ≠ m) :
    (∀ w1, w.requests ≤ w1.requests →
      ∃ e w2, doMatchVnicMetadata env n m w1 = some (.error e, w2) ∧
        (e = .notMatched ∨ ∃ t, e = .external t) ∧
        (AllAnswered env w.requests → e = .notMatched)) ∧
    (∀ w1, w.requests ≤ w1.requests →
      ∃ e w2 nx, queryVnicMetadataWithRetry env n m w1 = some (.error e, w2) ∧
        w2.log.getLast? = some (.backoffStop (w2.now - w1.now) nx) ∧
        timeSecond * vnicAttachmentReadyTimeoutSeconds < (w2.now - w1.now) + nx) ∧
    (∃ e wf evs, main env [prog, n] w = some (1, wf) ∧ wf.files = w.files ∧
      wf.log = w.log ++ evs ++ [.fatal e] ∧ ∀ ev ∈ evs, ev.isProfileEvent = false) := by
  have hPA : ∀ w1 : World, w.requests ≤ w1.requests →
      FetchWithoutMatch env w.requests m (doRequestVnicsMetadata env w1).1 := by
    intro w1 hk1
    rw [doRequestVnicsMetadata_fst]
    cases h : env.httpResult w1.requests with
    | error t =>
      left
      refine ⟨⟨t, rfl⟩, fun hall => ?_⟩
      obtain ⟨rs, hrs⟩ := hall _ hk1
      rw [h] at hrs
      cases hrs
    | ok rs =>
      right
      refine ⟨_, convertResponses_eq _ _, fun x hx => ?_⟩
      obtain ⟨r, hr, hxr⟩ := convertedFrom_macAddr _ _ _ x hx
      rw [hxr]
      exact hno _ rs hk1 h r hr
  have hQ : ∀ w1 : World, w.requests ≤ w1.requests →
      ∃ r w2, doMatchVnicMetadata env n m w1 = some (r, w2) ∧ Advances w1 w2 ∧
        MatchWithoutMatch env w.requests r := by
    intro w1 hk1
    obtain ⟨ra, w2, hP, hadv, h⟩ := doMatchVnicMetadata_spec env n m w.requests
      (FetchWithoutMatch env w.requests m) hPA w1 hk1
    refine ⟨_, w2, h, hadv, ?_⟩
    rcases hP with ⟨⟨t, rfl⟩, hnall⟩ | ⟨ms, rfl, hms⟩
    · exact ⟨_, rfl, Or.inr ⟨⟨t, rfl⟩, hnall⟩⟩
    · exact ⟨_, scan_none n m ms hms, Or.inl rfl⟩
  have hB : ∀ w1 : World, w.requests ≤ w1.requests →
      ∃ e w2 nx, queryVnicMetadataWithRetry env n m w1 = some (.error e, w2) ∧
        Advances w1 w2 ∧ e ≠ .indexOutOfRange ∧
        w2.log.getLast? = some (.backoffStop (w2.now - w1.now) nx) ∧
        timeSecond * vnicAttachmentReadyTimeoutSeconds < (w2.now - w1.now) + nx := by
    intro w1 hk1
    obtain ⟨r, w2, h, hadv, e, rfl, he⟩ :=
      queryVnicMetadataWithRetry_spec env n m w.requests
        (MatchWithoutMatch env w.requests) hQ w1 hk1
    have hne : e ≠ .indexOutOfRange := by
      rcases he with rfl | ⟨⟨t, rfl⟩, _⟩ <;> simp
    obtain ⟨nx, h1, h2⟩ := retryLoop_error_stop env _ _ _ _ _ _ h hne
    exact ⟨e, w2, nx, h, hadv, hne, h1, h2⟩
  refine ⟨?_, ?_, ?_⟩
  · intro w1 hk1
    obtain ⟨r, w2, h, _, e, rfl, he⟩ := hQ w1 hk1
    refine ⟨e, w2, h, ?_, ?_⟩
    · rcases he with rfl | ⟨ht, _⟩
      · exact Or.inl rfl
      · exact Or.inr ht
    · intro hall
      rcases he with rfl | ⟨_, hnall⟩
      · rfl
      · exact absurd hall hnall
  · intro w1 hk1
    obtain ⟨e, w2, nx, h, _, _, h1, h2⟩ := hB w1 hk1
    exact ⟨e, w2, nx, h, h1, h2⟩
  · obtain ⟨evs0, hw1, hevs0⟩ := queryVnicMacAddress_world env n w
    rcases hq : queryVnicMacAddress env n w with ⟨r, w1⟩
    rw [hq] at hw1 hmac
    simp only at hw1 hmac
    subst hmac
    have hk1 : w.requests ≤ w1.requests := by rw [hw1]
    obtain ⟨e, w2, nx, h, hadv, hne, _, _⟩ := hB w1 hk1
    obtain ⟨hf, _, _, evs2, hl2, he2⟩ := hadv
    refine ⟨e, emit (.fatal e) w2,
      .logIpLinkShow n :: .execIpLinkShow n :: evs0 ++ evs2, ?_, ?_, ?_, ?_⟩
    · rw [main_two_args, hq]
      simp only [h]
      rw [(logFatal_spec e w2).choose_spec.2.2.2 hne]
    · show w2.files = w.files
      rw [hf, hw1]
    · show w2.log ++ [Event.fatal e] = _
      rw [hl2, hw1]
      simp
    · intro ev hev
      simp only [List.cons_append, List.mem_cons, List.mem_append] at hev
      rcases hev with rfl | rfl | hev | hev
      · rfl
      · rfl
      · rcases hevs0 with rfl | ⟨b, rfl⟩
        · simp at hev
        · simp only [List.mem_singleton] at hev
          subst hev
          rfl
      · exact retryEvent_not_profile ev (he2 ev hev)

/-- C3 on the usual output of `ip` and an endpoint that always answers with
the entry of another interface. -/
theorem C3_no_match_is_fatal_witness :
    ∃ e wf evs, main (sampleEnv sampleIpOutput (fun _ => .ok [otherEntry]))
        ["oci-vnic".toList, "ens5".toList] emptyWorld = some (1, wf) ∧
      wf.files = emptyWorld.files ∧ wf.log = emptyWorld.log ++ evs ++ [.fatal e] ∧
      ∀ ev ∈ evs, ev.isProfileEvent = false :=
  (C3_no_match_is_fatal (sampleEnv sampleIpOutput (fun _ => .ok [otherEntry]))
    "oci-vnic".toList "ens5".toList "02:00:17:0a:bc:4d".toList emptyWorld (by decide)
    (by
      intro k rs _ h r hr
      have hrs : rs = [otherEntry] := by
        have : (Except.ok [otherEntry] : Except Nat (List VnicMetadataResponse)) = .ok rs := h
        cases this
        rfl
      subst hrs
      simp only [List.mem_singleton] at hr
      subst hr
      decide)).2.2

/-- C4: the policy of `makeBackoffPolicy` has initial interval 1 s, multiplier
1.2, randomization 0.1 and the cap given.  In a run of either regime started
in `w0` (cap 30 s), at every state `(f, b, w)` its loop comes to, whatever the
attempts before: if the attempt at `w` fails and completes more than 30 s
after the start, the regime returns the error of that attempt, and the state
it returns is the one that attempt left (same clock, same number of requests,
no further log line but the record of the `Stop`), so no further attempt is
started; and if the attempt at `w` succeeds, the regime returns its value and
the state it left.  Both regimes return in every run. -/
theorem C4_retry_stops_past_cap (env : Env) (name mac : Str) (w0 : World) (f : Nat)
    (b : ExponentialBackOff) (w w1 : World) :
    ((makeBackoffPolicy (timeSecond * 30) w0.now).InitialInterval = timeSecond ∧
      (makeBackoffPolicy (timeSecond * 30) w0.now).Multiplier = ⟨12, 10⟩ ∧
      (makeBackoffPolicy (timeSecond * 30) w0.now).RandomizationFactor = ⟨1, 10⟩ ∧
      (makeBackoffPolicy (timeSecond * 30) w0.now).MaxElapsedTime = 30 * timeSecond) ∧
    (Reaches env (fun w => some (doRequestVnicsMetadata env w))
        (retryFuel, (makeBackoffPolicy (timeSecond * metadataServiceReadyTimeoutSeconds)
          w0.now).Reset w0.now, w0) (f, b, w) →
      (∀ e, doRequestVnicsMetadata env w = (.error e, w1) →
        timeSecond * 30 < w1.now - w0.now →
        ∃ w2, requestVnicsMetadataWithRetry env w0 = some (.error e, w2) ∧
          w2.now = w1.now ∧ w2.requests = w1.requests ∧ w2.files = w1.files ∧
          (w2.log = w1.log ∨ ∃ el nx, w2.log = w1.log ++ [.backoffStop el nx])) ∧
      (∀ v, doRequestVnicsMetadata env w = (.ok v, w1) →
        requestVnicsMetadataWithRetry env w0 = some (.ok v, w1))) ∧
    (Reaches env (fun w => doMatchVnicMetadata env name mac w)
        (retryFuel, (makeBackoffPolicy (timeSecond * vnicAttachmentReadyTimeoutSeconds)
          w0.now).Reset w0.now, w0) (f, b, w) →
      (∀ e, doMatchVnicMetadata env name mac w = some (.error e, w1) →
        timeSecond * 30 < w1.now - w0.now →
        ∃ w2, queryVnicMetadataWithRetry env name mac w0 = some (.error e, w2) ∧
          w2.now = w1.now ∧ w2.requests = w1.requests ∧ w2.files = w1.files ∧
          (w2.log = w1.log ∨ ∃ el nx, w2.log = w1.log ++ [.backoffStop el nx])) ∧
      (∀ v, doMatchVnicMetadata env name mac w = some (.ok v, w1) →
        queryVnicMetadataWithRetry env name mac w0 = some (.ok v, w1))) ∧
    (∃ r w2, requestVnicsMetadataWithRetry env w0 = some (r, w2)) ∧
    (∃ r w2, queryVnicMetadataWithRetry env name mac w0 = some (r, w2)) := by
  refine ⟨⟨rfl, rfl, rfl, Nat.mul_comm _ _⟩, ?_, ?_, ?_, ?_⟩
  · intro hreach
    have hmono : ∀ (w : World) (r : Except GoError (List VnicMetadata)) (w1 : World),
        (fun w => some (doRequestVnicsMetadata env w)) w = some (r, w1) → w.now ≤ w1.now := by
      intro w r w1 h
      simp only [Option.some.injEq] at h
      have := (doRequestVnicsMetadata_advances env w).2.1
      rw [h] at this
      exact this
    have key := RetryWithData_past_cap env (fun w => some (doRequestVnicsMetadata env w)) hmono
      w0 f b w w1 hreach
    constructor
    · intro e he hpast
      exact key.1 e (by simp only [he]) hpast
    · intro v hv
      exact key.2 v (by simp only [hv])
  · intro hreach
    exact RetryWithData_past_cap env (fun w => doMatchVnicMetadata env name mac w)
      (doMatchVnicMetadata_mono env name mac) w0 f b w w1 hreach
  · obtain ⟨r, w2, h, _⟩ := requestVnicsMetadataWithRetry_spec env 0 (fun _ => True)
      (fun _ _ => trivial) w0 (Nat.zero_le _)
    exact ⟨r, w2, h⟩
  · obtain ⟨r, w2, h, _⟩ := queryVnicMetadataWithRetry_name env name mac w0
    exact ⟨r, w2, h⟩

/-- C4 on an endpoint whose requests fail after 31 s each: Regime A returns
the error of its first attempt, having made one request. -/
theorem C4_retry_stops_past_cap_witness :
    ∃ w2, requestVnicsMetadataWithRetry slowEnv emptyWorld = some (.error (.external 7), w2) ∧
      w2.now = (doRequestVnicsMetadata slowEnv emptyWorld).2.now ∧
      w2.requests = (doRequestVnicsMetadata slowEnv emptyWorld).2.requests ∧
      w2.files = (doRequestVnicsMetadata slowEnv emptyWorld).2.files ∧
      (w2.log = (doRequestVnicsMetadata slowEnv emptyWorld).2.log ∨
        ∃ el nx, w2.log = (doRequestVnicsMetadata slowEnv emptyWorld).2.log
          ++ [.backoffStop el nx]) :=
  ((C4_retry_stops_past_cap slowEnv "ens5".toList "02:00:17:0a:bc:4d".toList emptyWorld
    retryFuel ((makeBackoffPolicy (timeSecond * metadataServiceReadyTimeoutSeconds)
      emptyWorld.now).Reset emptyWorld.now) emptyWorld
    (doRequestVnicsMetadata slowEnv emptyWorld).2).2.1 Reaches.start).1
    (.external 7) rfl (by decide)

end OciVnic
